import Mathlib

/-!
# go-crawler

A shallow embedding of `crawler/crawler.go` (package `crawler` of
`tamarakaufler/go-crawler`) and of the conversion done in `main.go`.

* Strings are handled as lists of Unicode characters (`String.data`).
* `int8` values are integers; arithmetic that can leave the `int8` range goes
  through `toInt8`.
* The regular expressions of the program are embedded as matchers written for
  the two patterns the program compiles (`checkURL`, `regexSetup`), following the
  leftmost-first rule of Go's `regexp` package.
* The functions of `net/url` the program calls are a parameter (`NetURL`);
  `goURL` is an instance covering plain URLs, used to evaluate the program.
* The goroutines of `Run` are embedded as a step relation on a `World`
  (`step`, `run`), one step per atomic action of a task or of the collector.
-/

namespace Crawler

/-! ## Machine integers and errors -/

/-- Go's conversion to `int8`: wrap around into `[-128, 127]`. -/
def toInt8 (x : Int) : Int := (x + 128) % 256 - 128

/-- The errors `inputCheck` can return: the two package-level errors of
`crawler.go` and an error coming from `url.ParseRequestURI`. -/
inductive Error where
  | ErrNoUrlProvided
  | ErrIncorrectUrlFormat
  | parseError (msg : String)
deriving DecidableEq, Repr

/-! ## String helpers (package `strings`) -/

/-- Drop the characters of the front of `s` that satisfy `p`. -/
def trimLeft (p : Char → Bool) : List Char → List Char
  | [] => []
  | c :: cs => if p c then trimLeft p cs else c :: cs

/-- Go's `strings.Trim(s, " ")`: drop the leading and the trailing spaces. -/
def trimSpaces (s : List Char) : List Char :=
  (trimLeft (fun c => c == ' ') (trimLeft (fun c => c == ' ') s).reverse).reverse

/-- Go's `strings.TrimSuffix(s, "/")`: drop one trailing slash, if any. -/
def trimSuffixSlash (s : List Char) : List Char :=
  match s.reverse with
  | '/' :: r => r.reverse
  | _ => s

/-- `stripPrefix p s` is the rest of `s` after its prefix `p`, if `p` is a prefix. -/
def stripPrefix : List Char → List Char → Option (List Char)
  | [], s => some s
  | _ :: _, [] => none
  | p :: ps, c :: cs => if p = c then stripPrefix ps cs else none

/-- Go's `strings.Contains(s, sub)`. -/
def containsSub (sub : List Char) : List Char → Bool
  | [] => sub.isEmpty
  | c :: cs => (stripPrefix sub (c :: cs)).isSome || containsSub sub cs

/-! ## Character classes of the two regular expressions -/

/-- The class `[a-zA-Z0-9\-_.]` of `checkURL`. -/
def isHostChar (c : Char) : Bool :=
  c.isAlphanum || c == '-' || c == '_' || c == '.'

/-- Go's `\s`: `[\t\n\f\r ]`. -/
def isSpace (c : Char) : Bool :=
  c == '\t' || c == '\n' || c == '\x0c' || c == '\r' || c == ' '

/-- The class `[a-zA-Z0-9_="\- ]` of the optional attributes before `href`. -/
def isAttrChar (c : Char) : Bool :=
  c.isAlphanum || c == '_' || c == '=' || c == '"' || c == '-' || c == ' '

/-- The class of the path of an href: letters, digits, `_`, `-`, `/`, `&`, `?`. -/
def isPathChar (c : Char) : Bool :=
  c.isAlphanum || c == '_' || c == '-' || c == '/' || c == '&' || c == '?'

/-- The class `[a-z=]`. -/
def isLowerEq (c : Char) : Bool :=
  c.isLower || c == '='

/-! ## `checkURL` -/

/-- The optional group `(s)?`, followed in the pattern by `:`: an `s` at the head
can only be the group. -/
def optionalS : List Char → List Char
  | 's' :: t => t
  | r => r

/-- Whether `s` matches `^http(s)?://[a-zA-Z0-9\-_.]+/?$`.  The host run is
maximal because `/` is not a host character. -/
def matchBaseURL (s : List Char) : Bool :=
  match stripPrefix "http".data s with
  | none => false
  | some r =>
    match stripPrefix "://".data (optionalS r) with
    | none => false
    | some h =>
      let host := h.takeWhile isHostChar
      let rest := h.dropWhile isHostChar
      !host.isEmpty && (rest == [] || rest == ['/'])

/-- The function `checkURL`. -/
def checkURL (url : String) : Except Error Unit :=
  if matchBaseURL url.data then .ok () else .error .ErrIncorrectUrlFormat

/-! ## `regexSetup` and `FindAllStringSubmatch` -/

/-- The regular expression compiled by `regexSetup`:
`<a\s+(?:ATTR+)?href="((?:%s)?/PATH+)"\s*([a-z=]*)?(\s*/?>)?`, where `ATTR` is
the class of `isAttrChar`, `PATH` the class of `isPathChar`, and `base` holds the
characters substituted for `%s`. -/
structure Regexp where
  base : List Char
deriving DecidableEq, Repr

/-- The function `regexSetup`. -/
def regexSetup (s : String) : Regexp := ⟨s.data⟩

/-- Match the interpolated base at the head of the input, returning the matched
text and the rest.  The base is pasted into the pattern unquoted, so a `.` of
the base is the regular expression "any character but newline"; the other
characters a base accepted by `checkURL` can hold stand for themselves. -/
def matchBase : List Char → List Char → Option (List Char × List Char)
  | [], s => some ([], s)
  | _ :: _, [] => none
  | p :: ps, c :: cs =>
    if (p == '.' && c != '\n') || (p != '.' && p == c) then
      match matchBase ps cs with
      | some (m, r) => some (c :: m, r)
      | none => none
    else none

/-- The pattern `/PATH+"`: the path matched (without the quote) and
the rest after the quote.  The run is maximal since `"` is not in the class. -/
def matchPath : List Char → Option (List Char × List Char)
  | '/' :: r =>
    let run := r.takeWhile isPathChar
    match run, r.dropWhile isPathChar with
    | _ :: _, '"' :: t => some ('/' :: run, t)
    | _, _ => none
  | _ => none

/-- The pattern `((?:%s)?/PATH+)"`: capture group 1 and the rest.
The optional base is tried first (greedy `?`), then the path alone. -/
def matchHref (base s : List Char) : Option (List Char × List Char) :=
  let withBase :=
    match matchBase base s with
    | some (b, r) =>
      match matchPath r with
      | some (p, t) => some (b ++ p, t)
      | none => none
    | none => none
  match withBase with
  | some x => some x
  | none => matchPath s

/-- The pattern `href="((?:%s)?/PATH+)"`. -/
def matchHrefAttr (base s : List Char) : Option (List Char × List Char) :=
  match stripPrefix "href=\"".data s with
  | some r => matchHref base r
  | none => none

/-- The pattern `(?:ATTR+)?href="(...)"`, trying attribute runs of
`j`, `j - 1`, ..., `1` characters and then no run, in this order (greedy). -/
def matchAttrs (base : List Char) : Nat → List Char → Option (List Char × List Char)
  | 0, s => matchHrefAttr base s
  | j + 1, s =>
    match matchHrefAttr base (s.drop (j + 1)) with
    | some x => some x
    | none => matchAttrs base j s

/-- The pattern `\s+(?:ATTR+)?href="(...)"`, trying whitespace runs of
`k`, `k - 1`, ..., `1` characters in this order (greedy). -/
def matchSpaces (base : List Char) : Nat → List Char → Option (List Char × List Char)
  | 0, _ => none
  | k + 1, s =>
    let r := s.drop (k + 1)
    match matchAttrs base (r.takeWhile isAttrChar).length r with
    | some x => some x
    | none => matchSpaces base k s

/-- The end of the pattern, `\s*([a-z=]*)?(\s*/?>)?`, which always matches:
capture groups 2 and 3 and the rest of the input.  Every run is maximal. -/
def matchTail (t : List Char) : List Char × List Char × List Char :=
  let t1 := t.dropWhile isSpace
  let g2 := t1.takeWhile isLowerEq
  let t2 := t1.dropWhile isLowerEq
  let t3 := t2.dropWhile isSpace
  let t4 := match t3 with
    | '/' :: r => r
    | _ => t3
  match t4 with
  | '>' :: r => (g2, t2.take (t2.length - r.length), r)
  | _ => (g2, [], t2)

/-- One match of the page scanner: the slice `m` that `FindAllStringSubmatch`
yields (`m[0]` the whole match, `m[1]`..`m[3]` the capture groups) and the
number of characters of the whole match. -/
structure Match where
  groups : List String
  len : Nat
deriving DecidableEq, Repr

/-- Match the page scanner at the head of `s` (leftmost-first). -/
def matchAt (re : Regexp) (s : List Char) : Option Match :=
  match s with
  | '<' :: 'a' :: r =>
    match matchSpaces re.base (r.takeWhile isSpace).length r with
    | some (href, t) =>
      let (g2, g3, rest) := matchTail t
      let n := s.length - rest.length
      some ⟨[String.mk (s.take n), String.mk href, String.mk g2, String.mk g3], n⟩
    | none => none
  | _ => none

/-- The loop of `FindAllStringSubmatch`: scan the input from the left, `skip`
characters being part of the previous match; at most `n` matches are kept. -/
def findAll (re : Regexp) : Nat → Nat → List Char → List (List String)
  | 0, _, _ => []
  | _ + 1, _, [] => []
  | n + 1, skip + 1, _ :: cs => findAll re (n + 1) skip cs
  | n + 1, 0, c :: cs =>
    match matchAt re (c :: cs) with
    | some m => m.groups :: findAll re n (m.len - 1) cs
    | none => findAll re (n + 1) 0 cs

/-- Go's `(*Regexp).FindAllStringSubmatch(s, n)`: the successive non-overlapping
matches of the expression in `s`, at most `n` of them (all of them if `n < 0`). -/
def Regexp.FindAllStringSubmatch (re : Regexp) (s : String) (n : Int) : List (List String) :=
  findAll re (if n < 0 then s.data.length + 1 else n.toNat) 0 s.data

/-! ## The interface to `net/url` -/

/-- The part of Go's `net/url` that the crawler calls.  `Parse` is `url.Parse`
(`none` when it returns an error), `ParseRequestURI` is `url.ParseRequestURI`,
`IsAbs` and `ResolveReference` are the methods of `*url.URL`, and `format` is
`(*URL).String`, which `fmt.Sprintf("%s", ru)` calls. -/
structure NetURL where
  URL : Type
  Parse : String → Option URL
  ParseRequestURI : String → Except String URL
  IsAbs : URL → Bool
  ResolveReference : URL → URL → URL
  format : URL → String

/-- The fields of `url.URL` that plain URLs use. -/
structure GoURL where
  Scheme : List Char
  Host : List Char
  Path : List Char
  RawQuery : List Char
  ForceQuery : Bool
deriving DecidableEq, Repr

/-- The characters of the URLs that `goURL` covers: no fragment, user
information, port, escape or control character. -/
def isPlainChar (c : Char) : Bool :=
  c.isAlphanum || c == '-' || c == '_' || c == '.' || c == '/' || c == '&' || c == '?' ||
    c == '=' || c == ':'

/-- The function `getScheme` of `net/url`: the scheme and the rest, `none` for
the error "missing protocol scheme". -/
def getScheme (raw : List Char) : Nat → List Char → Option (List Char × List Char)
  | _, [] => some ([], raw)
  | i, c :: cs =>
    if c.isAlpha then getScheme raw (i + 1) cs
    else if c.isDigit || c == '+' || c == '-' || c == '.' then
      if i = 0 then some ([], raw) else getScheme raw (i + 1) cs
    else if c == ':' then
      if i = 0 then none else some (raw.take i, cs)
    else some ([], raw)

/-- Split `s` at every `sep`. -/
def splitAt (sep : Char) : List Char → List (List Char)
  | [] => [[]]
  | c :: cs =>
    if c == sep then [] :: splitAt sep cs
    else
      match splitAt sep cs with
      | [] => [[c]]
      | x :: xs => (c :: x) :: xs

/-- Join the segments with `/`. -/
def joinSlash : List (List Char) → List Char
  | [] => []
  | [x] => x
  | x :: y :: xs => x ++ '/' :: joinSlash (y :: xs)

/-- The dot-segment removal of `resolvePath`: the segments kept, last first. -/
def removeDots : List (List Char) → List (List Char) → List (List Char)
  | [], dst => dst
  | e :: es, dst =>
    if e = ['.'] then removeDots es dst
    else if e = ['.', '.'] then removeDots es dst.tail
    else removeDots es (e :: dst)

/-- The function `resolvePath` of `net/url` (RFC 3986, section 5.2). -/
def resolvePath (base ref : List Char) : List Char :=
  let full :=
    match ref with
    | [] => base
    | '/' :: _ => ref
    | _ => (base.reverse.dropWhile (fun c => c != '/')).reverse ++ ref
  if full = [] then []
  else
    let src := splitAt '/' full
    let dst := (removeDots src []).reverse
    let dst := if src.getLast? = some ['.'] ∨ src.getLast? = some ['.', '.'] then dst ++ [[]] else dst
    match joinSlash dst with
    | '/' :: r => '/' :: r
    | r => '/' :: r

/-- The function `parse` of `net/url` on plain URLs; `none` is an error.  A
string with a character outside `isPlainChar`, with a colon after the scheme, or
with a scheme and no leading slash (an opaque URL) is outside the instance and
reported as an error too. -/
def goParse (viaRequest : Bool) (raw : List Char) : Option GoURL :=
  if !raw.all isPlainChar || (raw.isEmpty && viaRequest) then none
  else
    match getScheme raw 0 raw with
    | none => none
    | some (scheme, rest) =>
      if rest.contains ':' then none
      else
        let forceQuery := rest.getLast? = some '?' ∧ rest.count '?' = 1
        let (rest, query) :=
          if forceQuery then (rest.dropLast, [])
          else (rest.takeWhile (fun c => c != '?'), (rest.dropWhile (fun c => c != '?')).tail)
        if rest.head? ≠ some '/' ∧ (!scheme.isEmpty || viaRequest) then none
        else
          let authority :=
            (!scheme.isEmpty || (!viaRequest && (stripPrefix "///".data rest).isNone)) &&
              (stripPrefix "//".data rest).isSome
          if authority then
            some ⟨scheme.map Char.toLower, (rest.drop 2).takeWhile (fun c => c != '/'),
              (rest.drop 2).dropWhile (fun c => c != '/'), query, forceQuery⟩
          else some ⟨scheme.map Char.toLower, [], rest, query, forceQuery⟩

/-- The method `ResolveReference` of `net/url`, on the fields of `GoURL`. -/
def goResolveReference (u ref : GoURL) : GoURL :=
  let scheme := if ref.Scheme = [] then u.Scheme else ref.Scheme
  if ref.Scheme ≠ [] ∨ ref.Host ≠ [] then
    { ref with Scheme := scheme, Path := resolvePath ref.Path [] }
  else
    let query := if ref.Path = [] ∧ ref.ForceQuery = false ∧ ref.RawQuery = [] then u.RawQuery
      else ref.RawQuery
    { ref with Scheme := scheme, Host := u.Host, Path := resolvePath u.Path ref.Path,
               RawQuery := query }

/-- The method `String` of `net/url`, on the fields of `GoURL`. -/
def goString (u : GoURL) : String :=
  let scheme := if u.Scheme = [] then [] else u.Scheme ++ [':']
  let slashes :=
    if (u.Scheme ≠ [] ∨ u.Host ≠ []) ∧ (u.Host ≠ [] ∨ u.Path ≠ []) then ['/', '/'] else []
  let sep := if u.Path ≠ [] ∧ u.Path.head? ≠ some '/' ∧ u.Host ≠ [] then ['/'] else []
  let query := if u.ForceQuery = true ∨ u.RawQuery ≠ [] then '?' :: u.RawQuery else []
  String.mk (scheme ++ slashes ++ u.Host ++ sep ++ u.Path ++ query)

/-- An instance of `NetURL` that follows Go's `net/url` on plain URLs (see
`goParse`), used to evaluate the crawler on concrete pages. -/
def goURL : NetURL where
  URL := GoURL
  Parse := fun s => goParse false s.data
  ParseRequestURI := fun s =>
    match goParse true s.data with
    | some u => .ok u
    | none => .error "invalid URI for request"
  IsAbs := fun u => u.Scheme ≠ []
  ResolveReference := goResolveReference
  format := goString

/-! ## The crawler -/

/-- The fields of `Creeper` that hold configuration; the channels, the wait
group, the mutex and `seenLinks` are part of `World` below.  A nil pointer is
`none`. -/
structure Creeper (L : NetURL) where
  BaseURL : String
  Depth : Int
  pageScanner : Option Regexp
  baseURLParsed : Option L.URL

variable {L : NetURL}

/-- The function `inputCheck`: the error returned, if any, and the `Creeper`
after the call (the function updates it in place, also when it fails). -/
def inputCheck (cc : Creeper L) : Option Error × Creeper L :=
  if cc.BaseURL = "" then (some .ErrNoUrlProvided, cc)
  else
    let trimmed := trimSpaces cc.BaseURL.data
    let trimmed := trimSuffixSlash trimmed
    let cc := { cc with BaseURL := String.mk trimmed }
    match checkURL cc.BaseURL with
    | .error err => (some err, cc)
    | .ok _ =>
      match L.ParseRequestURI cc.BaseURL with
      | .error msg => (some (.parseError msg), cc)
      | .ok baseURLParsed =>
        let cc := { cc with baseURLParsed := some baseURLParsed }
        let cc := if cc.Depth > 10 then { cc with Depth := 10 } else cc
        (none, cc)

/-- The function `pageScannerSetup`. -/
def pageScannerSetup (cc : Creeper L) : Creeper L :=
  match cc.pageScanner with
  | none => { cc with pageScanner := some (regexSetup cc.BaseURL) }
  | some _ => cc

/-- The body of the loop of `extractLinks` for one match `m`, on the pair of the
locals `links` and `seen`.  `none` is a run-time panic: an index out of range, or
a nil `baseURLParsed` when a relative link is resolved. -/
def extractStep (cc : Creeper L) (st : List String × List String) (m : List String) :
    Option (List String × List String) :=
  match m[1]? with
  | none => none
  | some l =>
    match L.Parse l with
    | none => some st
    | some u =>
      if containsSub "redirect".data l.data then some st
      else
        let resolved : Option String :=
          if L.IsAbs u then some l
          else
            match cc.baseURLParsed with
            | some b => some (L.format (L.ResolveReference b u))
            | none => none
        match resolved with
        | none => none
        | some l1 => if l1 ∈ st.2 then some st else some (st.1 ++ [l1], l1 :: st.2)

/-- The loop of `extractLinks` over the matches. -/
def extractLoop (cc : Creeper L) :
    List (List String) → List String × List String → Option (List String × List String)
  | [], st => some st
  | m :: ms, st =>
    match extractStep cc st m with
    | none => none
    | some st1 => extractLoop cc ms st1

/-- The method `extractLinks`; `none` is a run-time panic (a nil `pageScanner`
or a panic of the loop). -/
def extractLinks (cc : Creeper L) (body : String) : Option (List String) :=
  match cc.pageScanner with
  | none => none
  | some re => (extractLoop cc (re.FindAllStringSubmatch body 30) ([], [])).map Prod.fst

/-! ## `process`, one call -/

/-- The map `seenLinks` (`map[string][]string`) as an association list with at
most one entry per key. -/
abbrev SiteMap := List (String × List String)

/-- The value `seenLinks[k]` with its `ok` flag. -/
def SiteMap.get (m : SiteMap) (k : String) : Option (List String) :=
  match m with
  | [] => none
  | (k1, v) :: rest => if k1 = k then some v else SiteMap.get rest k

/-- The test `_, ok := seenLinks[k]`. -/
def SiteMap.has (m : SiteMap) (k : String) : Bool := (m.get k).isSome

/-- The assignment `seenLinks[k] = v`. -/
def SiteMap.set (m : SiteMap) (k : String) (v : List String) : SiteMap :=
  match m with
  | [] => [(k, v)]
  | (k1, v1) :: rest => if k1 = k then (k, v) :: rest else (k1, v1) :: SiteMap.set rest k v

/-- The type `page`. -/
structure page where
  url : String
  links : List String
deriving DecidableEq, Repr

/-- The type of the fetch functions: content or an error. -/
abbrev Fetch := String → Except String String

/-- How a call of `process` leaves its first part, the statements before the
loop: it returned at one of the two guards, it sent an error on `cc.fail`, the
fetch failed (logged), `extractLinks` panicked, or it is about to send a page on
`cc.seen`. -/
inductive Entry where
  | returned
  | failed (msg : String)
  | fetchError
  | panicked
  | emit (p : page)
deriving DecidableEq, Repr

/-- The statements of `process` up to the send on `cc.seen`; `seenLinks` is the
map at the time the call holds `muSeen`. -/
def processEntry (cc : Creeper L) (seenLinks : SiteMap) (depth : Int) (url : String)
    (fetch : Fetch) : Entry :=
  if depth > cc.Depth then .returned
  else if url = "" then .failed "incorrect input to process"
  else if seenLinks.has url then .returned
  else
    match fetch url with
    | .error _ => .fetchError
    | .ok body =>
      match extractLinks cc body with
      | none => .panicked
      | some links => .emit ⟨url, links⟩

/-- One iteration of the loop of `process` for `link`: whether a goroutine is
started; `seenLinks` is the map at the time the iteration holds `muSeen`. -/
def dispatch (seenLinks : SiteMap) (url link : String) : Bool :=
  if seenLinks.has link then false
  else if url = link then false
  else true

/-- The loop of `process`: the sub-tasks started, each with the (already
incremented) depth and its link.  `seenAt i` is the map `seenLinks` as the
`i`-th lock acquisition of the call finds it. -/
def processLoop (seenAt : Nat → SiteMap) (depth : Int) (url : String) :
    Nat → List String → List (Int × String)
  | _, [] => []
  | i, link :: rest =>
    if dispatch (seenAt i) url link then (depth, link) :: processLoop seenAt depth url (i + 1) rest
    else processLoop seenAt depth url (i + 1) rest

/-- What one call of `process` does to the rest of the program: the pages it
sends on `cc.seen`, the errors it sends on `cc.fail`, the URLs it fetches and
the calls `process(depth, l, fetch)` it starts as goroutines. -/
structure Effects where
  sent : List page
  failures : List String
  fetched : List String
  spawned : List (Int × String)
deriving DecidableEq, Repr

/-- The method `process`, one call, run to its end; `none` is a panic.  The
other goroutines act on the call only through `seenLinks`: `seenAt 0` is the
map at the first lock acquisition, `seenAt (i + 1)` at the one for the `i`-th
link. -/
def process (cc : Creeper L) (seenAt : Nat → SiteMap) (depth : Int) (url : String)
    (fetch : Fetch) : Option Effects :=
  match processEntry cc (seenAt 0) depth url fetch with
  | .returned => some ⟨[], [], [], []⟩
  | .failed msg => some ⟨[], [msg], [], []⟩
  | .fetchError => some ⟨[], [], [url], []⟩
  | .panicked => none
  | .emit p =>
    some ⟨[p], [], [url], processLoop seenAt (toInt8 (depth + 1)) url 1 p.links⟩

/-! ## The goroutines of `Run` -/

/-- Where a goroutine running `process` stands: before its first statement,
blocked on the send of its page, or in its loop with the links left. -/
inductive Phase where
  | start
  | send (links : List String)
  | loop (rest : List String)
deriving DecidableEq, Repr

/-- A goroutine running `process(depth, url, fetch)`; in the loop `depth` is the
incremented depth. -/
structure Task where
  depth : Int
  url : String
  phase : Phase
deriving DecidableEq, Repr

/-- The shared state of a run.  `inbox` is the page the collecting goroutine of
`Run` has received from `cc.seen` and not yet stored; `failure` is the error it
received from `cc.fail` (or a panic), after which the program exits.  `fetched`
and `received` log the URLs given to `fetch` and the pages received, oldest
first. -/
structure World where
  seenLinks : SiteMap
  tasks : List Task
  inbox : Option page
  failure : Option String
  fetched : List String
  received : List page
deriving DecidableEq, Repr

/-- The atomic actions: goroutine `i` of `tasks` takes its next step, or the
collecting goroutine stores the page it holds. -/
inductive Action where
  | task (i : Nat)
  | store
deriving DecidableEq, Repr

/-- The world after `crawlerInit` and the start of `process(0, cc.BaseURL, fetch)`. -/
def World.init (cc : Creeper L) : World :=
  ⟨[], [⟨0, cc.BaseURL, .start⟩], none, none, [], []⟩

/-- One atomic action; `none` when the action cannot be taken (no such
goroutine, a send while the collector is busy, nothing to store, or the program
has exited). -/
def step (cc : Creeper L) (fetch : Fetch) (w : World) (a : Action) : Option World :=
  if w.failure.isSome then none
  else
    match a with
    | .store =>
      match w.inbox with
      | none => none
      | some p => some { w with seenLinks := w.seenLinks.set p.url p.links, inbox := none }
    | .task i =>
      match w.tasks[i]? with
      | none => none
      | some t =>
        match t.phase with
        | .start =>
          match processEntry cc w.seenLinks t.depth t.url fetch with
          | .returned => some { w with tasks := w.tasks.eraseIdx i }
          | .failed msg =>
            if w.inbox.isSome then none
            else some { w with tasks := w.tasks.eraseIdx i, failure := some msg }
          | .fetchError =>
            some { w with tasks := w.tasks.eraseIdx i, fetched := w.fetched ++ [t.url] }
          | .panicked => some { w with failure := some "panic", fetched := w.fetched ++ [t.url] }
          | .emit p =>
            some { w with tasks := w.tasks.set i { t with phase := .send p.links },
                          fetched := w.fetched ++ [t.url] }
        | .send links =>
          if w.inbox.isSome then none
          else
            some { w with tasks := w.tasks.set i ⟨toInt8 (t.depth + 1), t.url, .loop links⟩,
                          inbox := some ⟨t.url, links⟩,
                          received := w.received ++ [⟨t.url, links⟩] }
        | .loop [] => some { w with tasks := w.tasks.eraseIdx i }
        | .loop (link :: rest) =>
          let tasks := w.tasks.set i { t with phase := .loop rest }
          if dispatch w.seenLinks t.url link then
            some { w with tasks := tasks ++ [⟨t.depth, link, .start⟩] }
          else some { w with tasks := tasks }

/-- Run a schedule, a list of actions, from `w`. -/
def run (cc : Creeper L) (fetch : Fetch) : List Action → World → Option World
  | [], w => some w
  | a :: as, w =>
    match step cc fetch w a with
    | none => none
    | some w1 => run cc fetch as w1

/-- The crawl has completed: every goroutine of `process` has returned
(`cc.wg.Wait()` is over) and the collecting goroutine has taken the `done`
signal, which it does only once it holds no page. -/
def World.completed (w : World) : Bool :=
  w.tasks.isEmpty && w.inbox.isNone && w.failure.isNone

/-! ## The mock site of the tests -/

/-- Modelled from the spec: the pages of the directory `./mock`, which
`mockFetch` reads and which are not among the sources.  Each page holds one
anchor per link that `TestCreeper_process` expects for it. -/
def mockFile (file : String) : Option String :=
  if file = "./mock/basePage.html" then some "<a href=\"/faq\">FAQ</a> <a href=\"/about\">About</a>"
  else if file = "./mock/faq.html" then some "<a href=\"/about\">About</a> <a href=\"/info\">Info</a>"
  else if file = "./mock/about.html" then
    some "<a href=\"/careers\">Careers</a> <a href=\"/faq\">FAQ</a>"
  else if file = "./mock/info.html" then
    some "<a href=\"/about\">About</a> <a href=\"/generic\">Generic</a>"
  else if file = "./mock/careers.html" then some "<a href=\"/generic\">Generic</a>"
  else if file = "./mock/generic.html" then some "<p>no links</p>"
  else none

/-- The function `mockFetch` of `mock.go`. -/
def mockFetch (testBase : String) : Fetch := fun url =>
  let file :=
    if url = testBase then "./mock/basePage.html"
    else if containsSub "/faq".data url.data then "./mock/faq.html"
    else if containsSub "/about".data url.data then "./mock/about.html"
    else if containsSub "/careers".data url.data then "./mock/careers.html"
    else if containsSub "/info".data url.data then "./mock/info.html"
    else if containsSub "/generic".data url.data then "./mock/generic.html"
    else ""
  match mockFile file with
  | some body => .ok body
  | none => .error "open: no such file or directory"

/-- The `Creeper` that `Run` and `TestCreeper_process` build from a base URL and
a depth, after `inputCheck` and `crawlerInit`. -/
def initCreeper (base : String) (depth : Int) : Creeper goURL :=
  pageScannerSetup (inputCheck ⟨base, depth, none, none⟩).2

/-- The `Creeper` of `TestCreeper_process` for the maximum depth `depth`. -/
def testCreeper (depth : Int) : Creeper goURL :=
  initCreeper "https://mmmmm.com" depth

/-- A schedule of the crawl of the mock site with maximum depth 2 in which the
goroutine for `/about` started by the page `/faq` (depth 2) runs before the one
started by the base page (depth 1). -/
def lateSchedule : List Action :=
  [.task 0, .task 0, .store, .task 0, .task 0, .task 0,
   .task 0, .task 0, .store, .task 0, .task 0, .task 0,
   .task 1, .task 1, .store, .task 1, .task 1, .task 1,
   .task 0, .task 1,
   .task 0, .task 0, .store, .task 0, .task 0, .task 0, .task 0]

/-- A schedule of the crawl of the mock site with maximum depth 2 in which the
two goroutines for `/about` both pass the test on `seenLinks` before either page
is stored. -/
def doubleSchedule : List Action :=
  [.task 0, .task 0, .store, .task 0, .task 0, .task 0,
   .task 0, .task 0, .store, .task 0, .task 0, .task 0,
   .task 0, .task 1,
   .task 0, .store, .task 1, .store,
   .task 0, .task 0, .task 0, .task 0, .task 0, .task 0,
   .task 0, .task 0, .store, .task 0, .task 0, .task 0,
   .task 0, .task 0, .store, .task 0, .task 0,
   .task 0, .task 0, .task 0]

/-! ## The pages of `TestCreeper_extractLinks` -/

/-- The body of the first case of `TestCreeper_extractLinks`. -/
def testBody1 : String :=
  "<p><br /> We’ve had a fantastic time catching up with the Mmmmm community in <a href=\"https://mmmmm.com/t/mmmm-hitting-meetup/1111/22\">Edinburgh, Bristol and Manchester</a> over the last few months. These meetups have cemented our commitment to keep spreading <a href=\"https://mmmmm.com/static/info\">community forum</a> the word across the UK this year.</p>\n\n\t\t\t\t<p><a href=\"https://notthisone.com/about\">community forum</a></p>\n\t\t\t\t<p>But planning events from 100 miles away isn’t easy and so we’d love to help you organise meetups in your city! There’s tons of potential for awesome events led by you and supported by us.<a href=\"https://mmmmm.com/static/images/favicon.png\">community forum</a></p>\n\n\t\t\t\t<p>Create a platform to showcase the most exciting and inspiring community focused projects and ideas your city has to offer, with our help <a href=\"https://mmmmm.com/blog/2017/06/08/host-a-mmmm-meetup/\">community forum</a> or a couple of Mmmmm team members to come along and help — talk to us about your idea and what you need to make it happen!</p><a href=\"https://mmmmm.com/static/info\">community forum</a> \n\n\t\t\t\t<p>In our experience <a class=\"c-footer__link\" href=\"https://mmmmm.com/careers\">careers</a>, some of the most successful events have begun with a conversation. With this in mind, the <a href=\"http://mmmmm.com/about\">community forum</a> is a great place to head for some initial research <a href=\"https://mmmmm.com/community\" class=\"o-button-text u-width-full u-width-auto-md u-margin-top\">Join our community today &rsaquo;</a> and inspiration.</p>"

/-- The body of the third case of `TestCreeper_extractLinks`. -/
def testBody3 : String :=
  "<p><br /> We’ve had a fantastic time catching up with the Mmmmm community in <a href=\"https://mmmmm.com/t/mmmm-hitting-meetup/1111/22\">Edinburgh, Bristol and Manchester</a> over the last few months. These meetups have cemented our commitment to keep spreading <a href=\"http://mmmmm.com/static/info\">community forum</a> the word across the UK this year.</p>\n\n\t\t\t\t<p><a href=\"https://notthisone.com/about\">community forum</a></p>\n\t\t\t\t<p>But planning events from 100 miles away isn’t easy and so we’d love to help you organise meetups in your city! There’s tons of potential for awesome events led by you and supported by us.<a href=\"https://mmmmm.com/static/images/favicon.png\">community forum</a></p>\n\n\t\t\t\t<p>Create a platform to showcase the most exciting and inspiring community focused projects and ideas your city has to offer, with our help <a href=\"https://mmmmm.com/blog/2017/06/08/host-a-mmmm-meetup/\">community forum</a> or a couple of Mmmmm team members to come along and help — talk to us about your idea and what you need to make it happen!</p>\n\n\t\t\t\t<p>In our experience, some of the most successful events have begun with a conversation. With this in mind, the <a href=\"/about\">community forum</a>  is a great place to head for some initial research and inspiration.  <a  href=\"/blog/authors/naji-esiri\">Our blog</a></p>"

/-- The body of the fourth case of `TestCreeper_extractLinks`. -/
def testBody4 : String :=
  "<p><br /> We’ve had a fantastic time catching up with the Mmmmm community in <a href=\"https://mmmmm.com/t/mmmm-hitting-meetup/1111/22\">Edinburgh, Bristol and Manchester</a> over the last few months. These meetups have cemented our commitment to keep spreading <a href=\"http://mmmmm.com/static/info\">community forum</a> the word across the UK this year.</p>\n\n\t\t\t\t<p><a href=\"https://notthisone.com/about\">community forum</a></p>\n\t\t\t\t<p>But planning events from 100 miles away isn’t easy and so we’d love to help you organise meetups in your city! There’s tons of potential for awesome events led by you and supported by us.<a href=\"https://mmmmm.com/static/images/favicon.png\">community forum</a></p>\n\n\t\t\t\t<p>Create a platform to showcase the most exciting and inspiring community focused projects and ideas your city has to offer, with our help <a href=\"/-play-store-redirect\">community forum</a> or a couple of Mmmmm team members to come along and help — talk to us about your idea and what you need to make it happen!</p>\n\n\t\t\t\t<p>In our experience, some of the most successful events have begun with a conversation. With this in mind, the <a href=\"https://mmmmm.com/t/about\">community forum</a>  is a great place to head for some initial research and inspiration.</p>"

/-- A page with one anchor `<a href="/c">` for each character `c` of `paths`. -/
def anchorsPage (paths : List Char) : String :=
  String.mk (paths.flatMap fun c => "<a href=\"/".data ++ c :: "\">".data)

/-- The links `base/c` for the characters `c` of `paths`. -/
def anchorLinks (base : String) (paths : List Char) : List String :=
  paths.map fun c => String.mk (base.data ++ ['/', c])

/-- A map with a self-link and a cycle: `A` links to `B` and to itself, `B`
links back to `A` and to `C`. -/
def cyclicMap : SiteMap := [("A", ["B", "A"]), ("B", ["A", "C"])]

/-! ## Notions the properties are stated with -/

/-- The link that the loop of `extractLinks` derives from the match `m`, if it
derives one: `m[1]` when it parses, does not contain `redirect` and is
absolute, its resolution against `baseURLParsed` when it is relative. -/
def linkOf (cc : Creeper L) (m : List String) : Option String :=
  match m[1]? with
  | none => none
  | some l =>
    match L.Parse l with
    | none => none
    | some u =>
      if containsSub "redirect".data l.data then none
      else if L.IsAbs u then some l
      else cc.baseURLParsed.map (fun b => L.format (L.ResolveReference b u))

/-- The links of the anchors that the page scanner finds in `body`, one per
anchor, in the order of the anchors in `body`. -/
def candidates (cc : Creeper L) (re : Regexp) (body : String) : List String :=
  (re.FindAllStringSubmatch body 30).filterMap (linkOf cc)

/-- The form the specification asks of a base URL: the scheme `http` or
`https`, then `://`, then a non-empty host of letters, digits, `-`, `_`, `.`,
then at most one slash. -/
def WellFormedBase (s : List Char) : Prop :=
  ∃ scheme host slash : List Char,
    (scheme = "http".data ∨ scheme = "https".data) ∧ host ≠ [] ∧
    (∀ c ∈ host, isHostChar c = true) ∧ (slash = [] ∨ slash = ['/']) ∧
    s = scheme ++ "://".data ++ host ++ slash

/-- Trimming whitespace at both ends, in the words of the specification. -/
def trimWhitespace (s : List Char) : List Char :=
  (trimLeft Char.isWhitespace (trimLeft Char.isWhitespace s).reverse).reverse

/-! ## The report -/

/-- The lines the report prints, with the values substituted in their formats:
the two rules, `"%s* %s (depth %d)"`, `"%s number of links = %d"`,
`"%s- %d - [%s]"` and `"%s (links displayed before)"`. -/
inductive Line where
  | rule
  | header (urlOfs url : String) (depth : Int)
  | count (linkOfs : String) (n : Nat)
  | dashes
  | link (linkOfs : String) (i : Nat) (l : String)
  | before (linkOfs : String)
deriving DecidableEq, Repr

/-- The loop of `createOffset`, with `i` an `int8`; `none` when the fuel, the
number of tests of the loop condition allowed, runs out. -/
def createOffsetLoop (offset : String) (depth : Int) : Nat → Int → String → Option String
  | 0, _, _ => none
  | fuel + 1, i, off =>
    if i ≤ depth then createOffsetLoop offset depth fuel (toInt8 (i + 1)) (off ++ offset)
    else some off

/-- The function `createOffset`. -/
def createOffset (fuel : Nat) (offset : String) (depth : Int) : Option String :=
  createOffsetLoop offset depth fuel 0 ""

/-- The loop of `displayPageMap` over the links of `url`, from index `i` on;
`recurse` is the recursive call `displayPageMap(seenLinks, maxDepth,
displayedPages, offset, depth, l)`.  The map `displayedPages` is shared by all
the calls, so it is threaded through. -/
def displayLinks (recurse : List String → Int → String → Option (List Line × List String))
    (linkOfs url : String) (depth : Int) :
    Nat → List String → List String → Option (List Line × List String)
  | _, [], displayedPages => some ([], displayedPages)
  | i, l :: rest, displayedPages =>
    if url = l then
      match displayLinks recurse linkOfs url depth (i + 1) rest displayedPages with
      | none => none
      | some (out, d) => some (Line.link linkOfs i l :: out, d)
    else if url ∈ displayedPages then
      match displayLinks recurse linkOfs url depth (i + 1) rest displayedPages with
      | none => none
      | some (out, d) => some (Line.link linkOfs i l :: Line.before linkOfs :: out, d)
    else
      match recurse displayedPages depth l with
      | none => none
      | some (out1, d1) =>
        match displayLinks recurse linkOfs url depth (i + 1) rest d1 with
        | none => none
        | some (out, d) => some (Line.link linkOfs i l :: (out1 ++ out), d)

/-- The function `displayPageMap`: the lines printed and the set
`displayedPages` at the end; `none` when the fuel runs out.  One unit of fuel is
used by each nested call, and `createOffset` gets the fuel that is left. -/
def displayPageMap (seenLinks : SiteMap) (maxDepth : Int) (offset : String) :
    Nat → List String → Int → String → Option (List Line × List String)
  | 0, _, _, _ => none
  | fuel + 1, displayedPages, depth, url =>
    match createOffset (fuel + 1) offset depth with
    | none => none
    | some urlOfs =>
      let linkOfs := urlOfs ++ offset
      let links := (seenLinks.get url).getD []
      let head := [Line.rule, Line.header urlOfs url depth, Line.count linkOfs links.length,
        Line.dashes]
      let depth := toInt8 (depth + 1)
      if depth > maxDepth then some (head, displayedPages)
      else
        match displayLinks (fun d dp l => displayPageMap seenLinks maxDepth offset fuel d dp l)
            linkOfs url depth 0 links displayedPages with
        | none => none
        | some (out, d) => some (head ++ out ++ [Line.dashes], url :: d)

/-- The method `display`, between its two banner lines: the lines printed for
the map `seenLinks`. -/
def display (cc : Creeper L) (seenLinks : SiteMap) (fuel : Nat) (offset : String) :
    Option (List Line) :=
  (displayPageMap seenLinks cc.Depth offset fuel [] 0 cc.BaseURL).map Prod.fst

/-! ## `main` and further notions for the report -/

/-- The `Creeper` that `main` builds from the flags `--url` and `--depth`: the
depth, a Go `int`, goes through the conversion `int8(depth)`. -/
def mainCreeper (baseURL : String) (depth : Int) : Creeper L :=
  ⟨baseURL, toInt8 depth, none, none⟩

/-- A map with a cycle of two pages: `A` links to `B` and `B` links to `A`. -/
def loopMap : SiteMap := [("A", ["B"]), ("B", ["A"])]

/-- A map in which the page `C` is reached twice, from `B` and from `A`. -/
def diamondMap : SiteMap := [("A", ["B", "C"]), ("B", ["C"]), ("C", ["D"])]

/-- Whether a line is the header of a page, `"%s* %s (depth %d)"`. -/
def Line.isHeader : Line → Bool
  | .header _ _ _ => true
  | _ => false

/-- The lines `"%s- %d - [%s]"` of the links `links`, numbered from `i`. -/
def linkLines (linkOfs : String) : Nat → List String → List Line
  | _, [] => []
  | i, l :: rest => Line.link linkOfs i l :: linkLines linkOfs (i + 1) rest

/-- The lines of the loop of `displayPageMap` over `links` when no link is
recursed into: each link, followed by the marker `(links displayed before)`
unless the link is `url` itself. -/
def markedLinks (linkOfs url : String) : Nat → List String → List Line
  | _, [] => []
  | i, l :: rest =>
    if url = l then Line.link linkOfs i l :: markedLinks linkOfs url (i + 1) rest
    else Line.link linkOfs i l :: Line.before linkOfs :: markedLinks linkOfs url (i + 1) rest

/-! ## Lemmas on `extractLinks` -/

theorem findAll_length_le (re : Regexp) (n skip : Nat) (s : List Char) :
    (findAll re n skip s).length ≤ n := by
  induction s generalizing n skip with
  | nil => cases n <;> simp [findAll]
  | cons c cs ih =>
    cases n with
    | zero => simp [findAll]
    | succ n =>
      cases skip with
      | succ k => simpa [findAll] using ih (n + 1) k
      | zero =>
        simp only [findAll]
        split
        · have := ih n
          simp only [List.length_cons]
          exact Nat.succ_le_succ (this _)
        · exact ih (n + 1) 0

theorem extractStep_eq (cc : Creeper L) (st st1 : List String × List String) (m : List String)
    (h : extractStep cc st m = some st1) :
    (linkOf cc m = none ∧ st1 = st) ∨
      ∃ l, linkOf cc m = some l ∧
        st1 = if l ∈ st.2 then st else (st.1 ++ [l], l :: st.2) := by
  unfold extractStep at h
  unfold linkOf
  cases hm : m[1]? with
  | none => simp [hm] at h
  | some l =>
    simp only [hm] at h ⊢
    cases hp : L.Parse l with
    | none =>
      simp only [hp] at h ⊢
      exact Or.inl ⟨by simp, by simpa using h.symm⟩
    | some u =>
      simp only [hp] at h ⊢
      by_cases hr : containsSub "redirect".data l.data = true
      · simp only [hr, if_true] at h ⊢
        exact Or.inl ⟨by simp, by simpa using h.symm⟩
      · simp only [hr] at h ⊢
        by_cases ha : L.IsAbs u = true
        · simp only [ha, if_true] at h ⊢
          right
          refine ⟨l, by simp, ?_⟩
          by_cases hx : l ∈ st.2 <;> simp [hx] at h ⊢ <;> exact h.symm
        · simp only [ha] at h ⊢
          cases hb : cc.baseURLParsed with
          | none => simp [hb] at h
          | some b =>
            simp only [hb] at h ⊢
            right
            refine ⟨L.format (L.ResolveReference b u), by simp, ?_⟩
            by_cases hx : L.format (L.ResolveReference b u) ∈ st.2 <;> simp [hx] at h ⊢ <;>
              exact h.symm

/-- The loop keeps `seen` equal to the set of `links`, appends to `links` the
candidates not met before, in their order. -/
theorem extractLoop_spec (cc : Creeper L) (ms : List (List String)) :
    ∀ (links : List String) (st1 : List String × List String),
      links.Nodup → extractLoop cc ms (links, links.reverse) = some st1 →
      ∃ tail, st1.1 = links ++ tail ∧ st1.1.Nodup ∧
        (∀ l, l ∈ tail ↔ l ∈ ms.filterMap (linkOf cc) ∧ l ∉ links) ∧
        tail.Pairwise (fun a b =>
          (ms.filterMap (linkOf cc)).indexOf a < (ms.filterMap (linkOf cc)).indexOf b) := by
  induction ms with
  | nil =>
    intro links st1 hn h
    simp only [extractLoop, Option.some.injEq] at h
    subst h
    exact ⟨[], by simp, by simpa using hn, by simp, List.Pairwise.nil⟩
  | cons m ms ih =>
    intro links st1 hn h
    simp only [extractLoop] at h
    cases hs : extractStep cc (links, links.reverse) m with
    | none => simp [hs] at h
    | some st2 =>
      simp only [hs] at h
      rcases extractStep_eq cc _ _ _ hs with ⟨hl, rfl⟩ | ⟨l, hl, hst⟩
      · obtain ⟨tail, h1, h2, h3, h4⟩ := ih links st1 hn h
        refine ⟨tail, h1, h2, ?_, ?_⟩
        · simpa [List.filterMap_cons_none hl] using h3
        · simpa [List.filterMap_cons_none hl] using h4
      · by_cases hmem : l ∈ links
        · have hst2 : st2 = (links, links.reverse) := by simp [hst, hmem]
          subst hst2
          obtain ⟨tail, h1, h2, h3, h4⟩ := ih links st1 hn h
          refine ⟨tail, h1, h2, ?_, ?_⟩
          · intro x
            rw [h3 x, List.filterMap_cons_some hl]
            constructor
            · rintro ⟨hx, hx2⟩; exact ⟨List.mem_cons_of_mem _ hx, hx2⟩
            · rintro ⟨hx, hx2⟩
              rcases List.mem_cons.1 hx with rfl | hx
              · exact absurd hmem hx2
              · exact ⟨hx, hx2⟩
          · rw [List.filterMap_cons_some hl]
            refine h4.imp_of_mem ?_
            intro a b ha hb hab
            have hane : l ≠ a := by
              rintro rfl; exact ((h3 _).1 ha).2 hmem
            have hbne : l ≠ b := by
              rintro rfl; exact ((h3 _).1 hb).2 hmem
            rw [List.indexOf_cons_ne _ hane, List.indexOf_cons_ne _ hbne]
            exact Nat.succ_lt_succ hab
        · have hst2 : st2 = (links ++ [l], (links ++ [l]).reverse) := by
            simp [hst, hmem]
          subst hst2
          have hn2 : (links ++ [l]).Nodup := by
            rw [List.nodup_append]
            refine ⟨hn, List.nodup_singleton l, ?_⟩
            intro a ha hb
            rw [List.mem_singleton] at hb
            subst hb
            exact hmem ha
          obtain ⟨tail, h1, h2, h3, h4⟩ := ih (links ++ [l]) st1 hn2 h
          refine ⟨l :: tail, by simp [h1], h2, ?_, ?_⟩
          · intro x
            rw [List.mem_cons, h3 x, List.filterMap_cons_some hl]
            constructor
            · rintro (rfl | ⟨hx, hx2⟩)
              · exact ⟨List.mem_cons_self _ _, hmem⟩
              · exact ⟨List.mem_cons_of_mem _ hx, fun hc => hx2 (List.mem_append_left _ hc)⟩
            · rintro ⟨hx, hx2⟩
              rcases List.mem_cons.1 hx with rfl | hx
              · left; rfl
              · by_cases hxl : x = l
                · left; exact hxl
                · right
                  refine ⟨hx, ?_⟩
                  intro hc
                  rcases List.mem_append.1 hc with hc | hc
                  · exact hx2 hc
                  · exact hxl (List.mem_singleton.1 hc)
          · rw [List.filterMap_cons_some hl, List.pairwise_cons]
            constructor
            · intro a ha
              have hane : l ≠ a := by
                rintro rfl
                exact ((h3 _).1 ha).2 (List.mem_append_right _ (List.mem_singleton_self _))
              rw [List.indexOf_cons_self, List.indexOf_cons_ne _ hane]
              exact Nat.succ_pos _
            · refine h4.imp_of_mem ?_
              intro a b ha hb hab
              have hane : l ≠ a := by
                rintro rfl
                exact ((h3 _).1 ha).2 (List.mem_append_right _ (List.mem_singleton_self _))
              have hbne : l ≠ b := by
                rintro rfl
                exact ((h3 _).1 hb).2 (List.mem_append_right _ (List.mem_singleton_self _))
              rw [List.indexOf_cons_ne _ hane, List.indexOf_cons_ne _ hbne]
              exact Nat.succ_lt_succ hab

theorem extractLoop_length (cc : Creeper L) (ms : List (List String)) :
    ∀ (st st1 : List String × List String), extractLoop cc ms st = some st1 →
      st1.1.length ≤ st.1.length + ms.length := by
  induction ms with
  | nil =>
    intro st st1 h
    simp only [extractLoop, Option.some.injEq] at h
    subst h; simp
  | cons m ms ih =>
    intro st st1 h
    simp only [extractLoop] at h
    cases hs : extractStep cc st m with
    | none => simp [hs] at h
    | some st2 =>
      simp only [hs] at h
      have h1 := ih st2 st1 h
      have h2 : st2.1.length ≤ st.1.length + 1 := by
        rcases extractStep_eq cc _ _ _ hs with ⟨_, rfl⟩ | ⟨l, _, hst⟩
        · omega
        · subst hst
          split <;> simp
      simp only [List.length_cons]
      omega

theorem extractLinks_eq (cc : Creeper L) (body : String) (links : List String)
    (h : extractLinks cc body = some links) :
    ∃ re st1, cc.pageScanner = some re ∧
      extractLoop cc (re.FindAllStringSubmatch body 30) ([], []) = some st1 ∧ st1.1 = links := by
  unfold extractLinks at h
  cases hre : cc.pageScanner with
  | none => simp [hre] at h
  | some re =>
    simp only [hre, Option.map_eq_some'] at h
    obtain ⟨st1, h1, h2⟩ := h
    exact ⟨re, st1, rfl, h1, h2⟩

/-- The result of `extractLinks` is the list of the candidates without
repetition, each at the place of its first occurrence. -/
theorem extractLinks_spec (cc : Creeper L) (re : Regexp) (body : String)
    (links : List String) (hre : cc.pageScanner = some re)
    (h : extractLinks cc body = some links) :
    links.Nodup ∧ (∀ l, l ∈ links ↔ l ∈ candidates cc re body) ∧
      links.Pairwise (fun a b =>
        (candidates cc re body).indexOf a < (candidates cc re body).indexOf b) := by
  obtain ⟨re1, st1, hre1, hloop, rfl⟩ := extractLinks_eq cc body links h
  rw [hre] at hre1
  cases hre1
  obtain ⟨tail, h1, h2, h3, h4⟩ :=
    extractLoop_spec cc (re.FindAllStringSubmatch body 30) [] st1 List.nodup_nil hloop
  simp only [List.nil_append] at h1
  subst h1
  refine ⟨h2, ?_, h4⟩
  intro l
  simpa [candidates] using h3 l

/-! ## Properties of `extractLinks` -/

/-- C3: the list returned by `extractLinks` holds no link twice, holds exactly
the links of the anchors found on the page, and lists them in the order of their
first occurrence among these anchors. -/
theorem extractLinks_nodup_first_occurrence (cc : Creeper L) (re : Regexp) (body : String)
    (links : List String) (hre : cc.pageScanner = some re)
    (h : extractLinks cc body = some links) :
    links.Nodup ∧ (∀ l, l ∈ links ↔ l ∈ candidates cc re body) ∧
      links.Pairwise (fun a b =>
        (candidates cc re body).indexOf a < (candidates cc re body).indexOf b) :=
  extractLinks_spec cc re body links hre h

set_option maxRecDepth 1000000 in
/-- The first body of `TestCreeper_extractLinks`, where the anchor of
`https://mmmmm.com/static/info` occurs twice: one entry, in second place. -/
theorem extractLinks_nodup_first_occurrence_witness :
    extractLinks (testCreeper 1) testBody1 =
        some ["https://mmmmm.com/t/mmmm-hitting-meetup/1111/22", "https://mmmmm.com/static/info",
          "https://mmmmm.com/blog/2017/06/08/host-a-mmmm-meetup/", "https://mmmmm.com/careers",
          "https://mmmmm.com/community"] ∧
      ["https://mmmmm.com/t/mmmm-hitting-meetup/1111/22", "https://mmmmm.com/static/info",
          "https://mmmmm.com/blog/2017/06/08/host-a-mmmm-meetup/", "https://mmmmm.com/careers",
          "https://mmmmm.com/community"].Nodup :=
  ⟨by decide!,
    (extractLinks_nodup_first_occurrence (testCreeper 1) (regexSetup "https://mmmmm.com")
      testBody1 _ (by decide!) (by decide!)).1⟩

/-- C5, as the code has it: every link returned by `extractLinks` comes from an
anchor whose raw href does not contain `redirect`; the link is that href when it
is absolute and its resolution against the base URL otherwise. -/
theorem extractLinks_raw_href_no_redirect (cc : Creeper L) (re : Regexp) (body : String)
    (links : List String) (hre : cc.pageScanner = some re)
    (h : extractLinks cc body = some links) :
    ∀ l ∈ links, ∃ m ∈ re.FindAllStringSubmatch body 30, ∃ href u,
      m[1]? = some href ∧ L.Parse href = some u ∧
      containsSub "redirect".data href.data = false ∧
      ((L.IsAbs u = true ∧ l = href) ∨
        (L.IsAbs u = false ∧
          ∃ b, cc.baseURLParsed = some b ∧ l = L.format (L.ResolveReference b u))) := by
  intro l hl
  have hc := ((extractLinks_spec cc re body links hre h).2.1 l).1 hl
  simp only [candidates, List.mem_filterMap] at hc
  obtain ⟨m, hm, hlink⟩ := hc
  refine ⟨m, hm, ?_⟩
  unfold linkOf at hlink
  cases h1 : m[1]? with
  | none => simp [h1] at hlink
  | some href =>
    simp only [h1] at hlink
    cases hp : L.Parse href with
    | none => simp [hp] at hlink
    | some u =>
      simp only [hp] at hlink
      by_cases hr : containsSub "redirect".data href.data = true
      · simp [hr] at hlink
      · have hr1 : containsSub "redirect".data href.data = false := by simpa using hr
        simp only [hr1, Bool.false_eq_true, if_false] at hlink
        refine ⟨href, u, rfl, hp, hr1, ?_⟩
        cases ha : L.IsAbs u with
        | true =>
          simp only [ha, if_true, Option.some.injEq] at hlink
          exact Or.inl ⟨rfl, hlink.symm⟩
        | false =>
          simp only [ha, Bool.false_eq_true, if_false, Option.map_eq_some'] at hlink
          obtain ⟨b, hb, hbl⟩ := hlink
          exact Or.inr ⟨rfl, b, hb, hbl.symm⟩

set_option maxRecDepth 1000000 in
/-- The fourth body of `TestCreeper_extractLinks`: the anchor of the play-store
redirect gives no link, and the link `https://mmmmm.com/t/about` comes from an
href without `redirect`. -/
theorem extractLinks_raw_href_no_redirect_witness :
    extractLinks (testCreeper 1) testBody4 =
        some ["https://mmmmm.com/t/mmmm-hitting-meetup/1111/22", "https://mmmmm.com/t/about"] ∧
      ∃ m ∈ (regexSetup "https://mmmmm.com").FindAllStringSubmatch testBody4 30, ∃ href u,
        m[1]? = some href ∧ goURL.Parse href = some u ∧
        containsSub "redirect".data href.data = false ∧
        ((goURL.IsAbs u = true ∧ "https://mmmmm.com/t/about" = href) ∨
          (goURL.IsAbs u = false ∧ ∃ b, (testCreeper 1).baseURLParsed = some b ∧
            "https://mmmmm.com/t/about" = goURL.format (goURL.ResolveReference b u))) :=
  ⟨by decide!,
    extractLinks_raw_href_no_redirect (testCreeper 1) (regexSetup "https://mmmmm.com") testBody4
      ["https://mmmmm.com/t/mmmm-hitting-meetup/1111/22", "https://mmmmm.com/t/about"]
      (by decide!) (by decide!) "https://mmmmm.com/t/about" (by decide!)⟩

set_option maxRecDepth 1000000 in
/-- C5, as stated, fails when the base URL itself contains `redirect`: a
relative anchor resolves to a link that contains it. -/
theorem extractLinks_redirect_in_base :
    extractLinks (initCreeper "https://redirect.com" 3) "<a href=\"/about\">About</a>" =
        some ["https://redirect.com/about"] ∧
      containsSub "redirect".data "https://redirect.com/about".data = true := by
  decide!

/-- C6: `extractLinks` returns at most 30 links. -/
theorem extractLinks_length_le (cc : Creeper L) (body : String) (links : List String)
    (h : extractLinks cc body = some links) : links.length ≤ 30 := by
  obtain ⟨re, st1, _, hloop, rfl⟩ := extractLinks_eq cc body links h
  have h1 := extractLoop_length cc _ _ _ hloop
  have h2 : (re.FindAllStringSubmatch body 30).length ≤ 30 := by
    unfold Regexp.FindAllStringSubmatch
    exact findAll_length_le re _ 0 body.data
  simp only [List.length_nil, Nat.zero_add] at h1
  omega

set_option maxRecDepth 1000000 in
/-- A page of 31 anchors to distinct paths yields the links of the first 30. -/
theorem extractLinks_length_le_witness :
    extractLinks (initCreeper "http://a.b" 1)
        (anchorsPage "abcdefghijklmnopqrstuvwxyzABCDE".data) =
        some (anchorLinks "http://a.b" "abcdefghijklmnopqrstuvwxyzABCD".data) ∧
      (anchorLinks "http://a.b" "abcdefghijklmnopqrstuvwxyzABCD".data).length ≤ 30 :=
  ⟨by decide!,
    extractLinks_length_le (initCreeper "http://a.b" 1)
      (anchorsPage "abcdefghijklmnopqrstuvwxyzABCDE".data) _ (by decide!)⟩

/-! ## Lemmas on `checkURL` -/

theorem stripPrefix_eq_some (p s r : List Char) : stripPrefix p s = some r ↔ s = p ++ r := by
  induction p generalizing s with
  | nil => simp [stripPrefix, eq_comm]
  | cons a p ih =>
    cases s with
    | nil => simp [stripPrefix]
    | cons c cs =>
      simp only [stripPrefix]
      by_cases h : a = c
      · subst h; simp [ih]
      · simp only [h, if_false, List.cons_append, List.cons.injEq, false_iff, reduceCtorEq]
        rintro ⟨hc, _⟩
        exact h hc.symm

theorem span_unique (p : Char → Bool) (a b : List Char) (ha : ∀ c ∈ a, p c = true)
    (hb : ∀ c t, b = c :: t → p c = false) :
    (a ++ b).takeWhile p = a ∧ (a ++ b).dropWhile p = b := by
  induction a with
  | nil =>
    cases b with
    | nil => simp
    | cons c t => simp [List.takeWhile, List.dropWhile, hb c t rfl]
  | cons x xs ih =>
    have hx : p x = true := ha x (List.mem_cons_self _ _)
    have := ih (fun c hc => ha c (List.mem_cons_of_mem _ hc))
    simp [List.takeWhile, List.dropWhile, hx, this.1, this.2]

theorem matchBaseURL_iff (s : List Char) : matchBaseURL s = true ↔ WellFormedBase s := by
  have e1 : "http".data = ['h', 't', 't', 'p'] := rfl
  have e2 : "https".data = ['h', 't', 't', 'p', 's'] := rfl
  have e3 : "://".data = [':', '/', '/'] := rfl
  constructor
  · intro h
    unfold matchBaseURL at h
    cases h1 : stripPrefix "http".data s with
    | none => simp [h1] at h
    | some r =>
      simp only [h1] at h
      rw [stripPrefix_eq_some] at h1
      split at h
      · simp at h
      · rename_i hh hstrip
        rw [stripPrefix_eq_some] at hstrip
        simp only [Bool.and_eq_true, Bool.not_eq_true', List.isEmpty_eq_false, Bool.or_eq_true,
          beq_iff_eq] at h
        have hsplit := List.takeWhile_append_dropWhile isHostChar hh
        have hall : ∀ c ∈ hh.takeWhile isHostChar, isHostChar c = true :=
          fun c hc => List.mem_takeWhile_imp hc
        unfold optionalS at hstrip
        split at hstrip
        · rename_i t
          refine ⟨"https".data, hh.takeWhile isHostChar, hh.dropWhile isHostChar, Or.inr rfl,
            ?_, hall, h.2, ?_⟩
          · intro hc; simp [hc] at h
          · rw [h1, hstrip, e1, e2, e3]
            simp only [List.append_assoc, List.cons_append, List.nil_append]
            rw [hsplit]
        · refine ⟨"http".data, hh.takeWhile isHostChar, hh.dropWhile isHostChar, Or.inl rfl,
            ?_, hall, h.2, ?_⟩
          · intro hc; simp [hc] at h
          · rw [h1, hstrip, e1, e3]
            simp only [List.append_assoc, List.cons_append, List.nil_append]
            rw [hsplit]
  · rintro ⟨scheme, host, slash, hscheme, hne, hall, hslash, rfl⟩
    have hb : ∀ c t, slash = c :: t → isHostChar c = false := by
      intro c t hc
      rcases hslash with h | h
      · simp [h] at hc
      · rw [h] at hc
        simp only [List.cons.injEq] at hc
        rw [← hc.1]
        decide
    obtain ⟨ht, hd⟩ := span_unique isHostChar host slash hall hb
    have hhost : host.isEmpty = false := by
      cases host with
      | nil => exact absurd rfl hne
      | cons _ _ => rfl
    have hrest : (slash == [] || slash == ['/']) = true := by
      rcases hslash with h | h <;> subst h <;> decide
    unfold matchBaseURL
    rcases hscheme with h | h <;> subst h
    · have h1 : stripPrefix "http".data ("http".data ++ "://".data ++ host ++ slash) =
          some ("://".data ++ (host ++ slash)) := by
        rw [stripPrefix_eq_some]; simp
      have h0 : optionalS ("://".data ++ (host ++ slash)) = "://".data ++ (host ++ slash) := rfl
      have h2 : stripPrefix "://".data ("://".data ++ (host ++ slash)) =
          some (host ++ slash) := by
        rw [stripPrefix_eq_some]
      rw [h1]
      simp only [h0, h2, ht, hd, hhost, hrest]
      rfl
    · have h1 : stripPrefix "http".data ("https".data ++ "://".data ++ host ++ slash) =
          some ('s' :: ("://".data ++ (host ++ slash))) := by
        rw [stripPrefix_eq_some, e1, e2]; simp
      have h0 : optionalS ('s' :: ("://".data ++ (host ++ slash))) =
          "://".data ++ (host ++ slash) := rfl
      have h2 : stripPrefix "://".data ("://".data ++ (host ++ slash)) =
          some (host ++ slash) := by
        rw [stripPrefix_eq_some]
      rw [h1]
      simp only [h0, h2, ht, hd, hhost, hrest]
      rfl

/-! ## `inputCheck` -/

/-- C2, with the trimming the code does (`strings.Trim(s, " ")` drops space
characters only): an empty URL gives `ErrNoUrlProvided`; a non-empty URL gives
`ErrIncorrectUrlFormat` exactly when, trimmed of its spaces and of one trailing
slash, it is not of the form scheme `http` or `https`, `://`, host, optional
slash; otherwise, `url.ParseRequestURI` accepting it, there is no error, the
normalized URL and its parsed form are stored, and `Depth` is capped at 10. -/
theorem inputCheck_contract (cc : Creeper L) :
    (cc.BaseURL = "" → (inputCheck cc).1 = some .ErrNoUrlProvided) ∧
    (cc.BaseURL ≠ "" →
      ((inputCheck cc).1 = some .ErrIncorrectUrlFormat ↔
        ¬ WellFormedBase (trimSuffixSlash (trimSpaces cc.BaseURL.data)))) ∧
    (cc.BaseURL ≠ "" → WellFormedBase (trimSuffixSlash (trimSpaces cc.BaseURL.data)) →
      ∀ u, L.ParseRequestURI (String.mk (trimSuffixSlash (trimSpaces cc.BaseURL.data))) = .ok u →
        (inputCheck cc).1 = none ∧
        (inputCheck cc).2.BaseURL = String.mk (trimSuffixSlash (trimSpaces cc.BaseURL.data)) ∧
        (inputCheck cc).2.baseURLParsed = some u ∧
        (inputCheck cc).2.Depth = (if cc.Depth > 10 then 10 else cc.Depth)) := by
  refine ⟨?_, ?_, ?_⟩
  · intro h
    simp [inputCheck, h]
  · intro h
    rw [← matchBaseURL_iff]
    unfold inputCheck checkURL
    simp only [h, if_false]
    by_cases hm : matchBaseURL (trimSuffixSlash (trimSpaces cc.BaseURL.data)) = true
    · simp only [hm, if_true, not_true_eq_false, iff_false]
      cases L.ParseRequestURI (String.mk (trimSuffixSlash (trimSpaces cc.BaseURL.data))) <;> simp
    · simp [hm]
  · intro h hw u hu
    rw [← matchBaseURL_iff] at hw
    unfold inputCheck checkURL
    simp only [h, if_false, hw, if_true, hu]
    by_cases hd : cc.Depth > 10 <;> simp [hd]

set_option maxRecDepth 1000000 in
/-- The cases of `TestCreeper_inputCheck`. -/
theorem inputCheck_contract_witness :
    (inputCheck (L := goURL) ⟨"https://aaa.com", 15, none, none⟩).1 = none ∧
      (inputCheck (L := goURL) ⟨"https://aaa.com", 15, none, none⟩).2.BaseURL = "https://aaa.com" ∧
      (inputCheck (L := goURL) ⟨"https://aaa.com", 15, none, none⟩).2.Depth = 10 ∧
      (inputCheck (L := goURL) ⟨"", 0, none, none⟩).1 = some .ErrNoUrlProvided ∧
      (inputCheck (L := goURL) ⟨"htttp://aaa.com", 3, none, none⟩).1 =
        some .ErrIncorrectUrlFormat ∧
      (inputCheck (L := goURL) ⟨"aaa.com", 3, none, none⟩).1 = some .ErrIncorrectUrlFormat :=
  have h := (inputCheck_contract (L := goURL) ⟨"https://aaa.com", 15, none, none⟩).2.2
    (by decide) ((matchBaseURL_iff _).1 (by decide))
    ⟨"https".data, "aaa.com".data, [], [], false⟩ rfl
  ⟨h.1, h.2.1, h.2.2.2,
    (inputCheck_contract (L := goURL) ⟨"", 0, none, none⟩).1 rfl, by decide, by decide⟩

set_option maxRecDepth 1000000 in
/-- C2, as stated, fails for whitespace other than the space: a URL followed by
a tab is well formed once its whitespace is trimmed, and `inputCheck` rejects it. -/
theorem inputCheck_tab_rejected :
    (inputCheck (L := goURL) ⟨"https://aaa.com\t", 3, none, none⟩).1 =
        some .ErrIncorrectUrlFormat ∧
      WellFormedBase (trimSuffixSlash (trimWhitespace "https://aaa.com\t".data)) :=
  ⟨by decide, (matchBaseURL_iff _).1 (by decide)⟩

/-! ## Lemmas on `process` -/

theorem matchAt_groups (re : Regexp) (s : List Char) (m : Match) (h : matchAt re s = some m) :
    m.groups.length = 4 := by
  unfold matchAt at h
  split at h
  · split at h
    · simp only [Option.some.injEq] at h
      subst h
      rfl
    · simp at h
  · simp at h

theorem findAll_groups (re : Regexp) (n skip : Nat) (s : List Char) :
    ∀ m ∈ findAll re n skip s, m.length = 4 := by
  induction s generalizing n skip with
  | nil => cases n <;> simp [findAll]
  | cons c cs ih =>
    cases n with
    | zero => simp [findAll]
    | succ n =>
      cases skip with
      | succ k => simpa [findAll] using ih (n + 1) k
      | zero =>
        simp only [findAll]
        split
        · rename_i m hm
          intro x hx
          rcases List.mem_cons.1 hx with rfl | hx
          · exact matchAt_groups re _ m hm
          · exact ih n _ x hx
        · exact ih (n + 1) 0

theorem extractStep_isSome (cc : Creeper L) (b : L.URL) (hb : cc.baseURLParsed = some b)
    (st : List String × List String) (m : List String) (hm : m.length = 4) :
    ∃ st1, extractStep cc st m = some st1 := by
  unfold extractStep
  have h1 : ∃ l, m[1]? = some l := by
    match m, hm with
    | [_, l, _, _], _ => exact ⟨l, rfl⟩
  obtain ⟨l, hl⟩ := h1
  simp only [hl, hb]
  cases L.Parse l with
  | none => exact ⟨st, rfl⟩
  | some u =>
    simp only
    by_cases hr : containsSub "redirect".data l.data = true
    · exact ⟨st, by simp [hr]⟩
    · cases ha : L.IsAbs u with
      | true =>
        by_cases hx : l ∈ st.2
        · exact ⟨st, by simp [hr, hx]⟩
        · exact ⟨_, by simp [hr, hx]; rfl⟩
      | false =>
        by_cases hx : L.format (L.ResolveReference b u) ∈ st.2
        · exact ⟨st, by simp [hr, hx]⟩
        · exact ⟨_, by simp [hr, hx]; rfl⟩

theorem extractLoop_isSome (cc : Creeper L) (b : L.URL) (hb : cc.baseURLParsed = some b)
    (ms : List (List String)) (hms : ∀ m ∈ ms, m.length = 4) :
    ∀ st, ∃ st1, extractLoop cc ms st = some st1 := by
  induction ms with
  | nil => intro st; exact ⟨st, rfl⟩
  | cons m ms ih =>
    intro st
    obtain ⟨st2, h2⟩ := extractStep_isSome cc b hb st m (hms m (List.mem_cons_self _ _))
    obtain ⟨st1, h1⟩ := ih (fun x hx => hms x (List.mem_cons_of_mem _ hx)) st2
    exact ⟨st1, by simp [extractLoop, h2, h1]⟩

/-- An initialised `Creeper` never panics in `extractLinks`. -/
theorem extractLinks_isSome (cc : Creeper L) (re : Regexp) (b : L.URL)
    (hre : cc.pageScanner = some re) (hb : cc.baseURLParsed = some b) (body : String) :
    ∃ links, extractLinks cc body = some links := by
  obtain ⟨st1, h1⟩ := extractLoop_isSome cc b hb (re.FindAllStringSubmatch body 30)
    (by unfold Regexp.FindAllStringSubmatch; exact findAll_groups re _ 0 body.data) ([], [])
  exact ⟨st1.1, by simp [extractLinks, hre, h1]⟩

theorem processLoop_eq (seenAt : Nat → SiteMap) (depth : Int) (url : String)
    (links : List String) :
    ∀ k, processLoop seenAt depth url (k + 1) links =
      ((links.enumFrom k).filter
        (fun p => !(seenAt (p.1 + 1)).has p.2 && p.2 != url)).map (fun p => (depth, p.2)) := by
  induction links with
  | nil => intro k; rfl
  | cons l ls ih =>
    intro k
    simp only [processLoop, List.enumFrom_cons, List.filter_cons, dispatch]
    rw [ih (k + 1)]
    by_cases hs : (seenAt (k + 1)).has l = true
    · simp [hs]
    · by_cases hu : url = l
      · subst hu; simp
      · have hu2 : ¬ l = url := fun h => hu h.symm
        simp [hs, hu, hu2]

theorem toInt8_succ (d : Int) (hlo : -128 ≤ d) (hhi : d < 127) : toInt8 (d + 1) = d + 1 := by
  unfold toInt8
  omega

/-! ## `process`, one call -/

/-- C7: one call of `process` (of an initialised `Creeper`) sends a page on
`cc.seen` if and only if the depth is within the maximum, the URL is not empty,
the URL is not a key of `seenLinks` and the fetch succeeds; the page is then the
URL with `extractLinks` of the body.  When no page is sent no goroutine is
started; an error goes to `cc.fail` only for an empty URL within the depth, so
never for a fetch failure; and nothing is fetched when a guard returns. -/
theorem process_sends_iff (cc : Creeper L) (re : Regexp) (b : L.URL)
    (hre : cc.pageScanner = some re) (hb : cc.baseURLParsed = some b)
    (seenAt : Nat → SiteMap) (depth : Int) (url : String) (fetch : Fetch) :
    ∃ eff, process cc seenAt depth url fetch = some eff ∧
      (eff.sent ≠ [] ↔
        depth ≤ cc.Depth ∧ url ≠ "" ∧ (seenAt 0).has url = false ∧
          ∃ body, fetch url = .ok body) ∧
      (∀ body, depth ≤ cc.Depth → url ≠ "" → (seenAt 0).has url = false →
        fetch url = .ok body →
        ∃ links, extractLinks cc body = some links ∧ eff.sent = [⟨url, links⟩]) ∧
      (eff.sent = [] → eff.spawned = []) ∧
      (eff.failures ≠ [] ↔ depth ≤ cc.Depth ∧ url = "") ∧
      (eff.fetched ≠ [] → depth ≤ cc.Depth ∧ url ≠ "" ∧ (seenAt 0).has url = false) := by
  unfold process processEntry
  by_cases hd : depth > cc.Depth
  · have hd2 : ¬ depth ≤ cc.Depth := by omega
    exact ⟨_, by simp only [hd, if_true]; rfl, by simp [hd2]⟩
  · have hd2 : depth ≤ cc.Depth := by omega
    by_cases hu : url = ""
    · exact ⟨_, by simp only [hd, if_false, hu, if_true]; rfl, by simp [hd2, hu]⟩
    · by_cases hs : (seenAt 0).has url = true
      · exact ⟨_, by simp only [hd, if_false, hu, hs, if_true]; rfl, by simp [hs, hu]⟩
      · have hs2 : (seenAt 0).has url = false := by simpa using hs
        cases hf : fetch url with
        | error e =>
          exact ⟨_, by simp only [hd, if_false, hu, hs]; rfl, by simp [hu, hd2, hs2]⟩
        | ok body =>
          obtain ⟨links, hl⟩ := extractLinks_isSome cc re b hre hb body
          refine ⟨_, by simp only [hd, if_false, hu, hs, hl]; rfl, ?_⟩
          simp [hd2, hu, hs2, hl]

set_option maxRecDepth 1000000 in
/-- The call `process(0, base, fetch)` of `TestCreeper_process` on an empty
`seenLinks` sends the base page with its two links. -/
theorem process_sends_iff_witness :
    ∃ eff, process (testCreeper 1) (fun _ => []) 0 "https://mmmmm.com"
        (mockFetch "https://mmmmm.com") = some eff ∧
      eff.sent = [⟨"https://mmmmm.com", ["https://mmmmm.com/faq", "https://mmmmm.com/about"]⟩] := by
  obtain ⟨eff, h1, _, h2, _⟩ := process_sends_iff (testCreeper 1) (regexSetup "https://mmmmm.com")
    ⟨"https".data, "mmmmm.com".data, [], [], false⟩ (by decide) rfl (fun _ => []) 0
    "https://mmmmm.com" (mockFetch "https://mmmmm.com")
  obtain ⟨links, hl, hs⟩ := h2 "<a href=\"/faq\">FAQ</a> <a href=\"/about\">About</a>"
    (by decide) (by decide) (by decide) rfl
  have hl2 : extractLinks (testCreeper 1) "<a href=\"/faq\">FAQ</a> <a href=\"/about\">About</a>" =
      some ["https://mmmmm.com/faq", "https://mmmmm.com/about"] := by decide
  rw [hl2] at hl
  cases hl
  exact ⟨eff, h1, hs⟩

/-- C8: a call of `process` at depth `depth` on `url` whose fetch succeeded
sends the page of `url` with all the extracted links and starts exactly one
goroutine `process(depth + 1, l, fetch)` for each extracted link `l` that is not
a key of `seenLinks` when its iteration looks it up and is not `url` itself, in
the order of the links. -/
theorem process_spawns (cc : Creeper L) (re : Regexp) (b : L.URL)
    (hre : cc.pageScanner = some re) (hb : cc.baseURLParsed = some b)
    (seenAt : Nat → SiteMap) (depth : Int) (url : String) (fetch : Fetch) (body : String)
    (hlo : -128 ≤ depth) (hhi : depth < 127) (hd : depth ≤ cc.Depth) (hu : url ≠ "")
    (hs : (seenAt 0).has url = false) (hf : fetch url = .ok body) :
    ∃ links eff, extractLinks cc body = some links ∧
      process cc seenAt depth url fetch = some eff ∧
      eff.sent = [⟨url, links⟩] ∧
      eff.spawned =
        ((links.enum.filter (fun p => !(seenAt (p.1 + 1)).has p.2 && p.2 != url)).map
          (fun p => (depth + 1, p.2))) ∧
      ∀ s ∈ eff.spawned, s.2 ≠ url := by
  obtain ⟨links, hl⟩ := extractLinks_isSome cc re b hre hb body
  have hd2 : ¬ depth > cc.Depth := by omega
  have hp : process cc seenAt depth url fetch =
      some ⟨[⟨url, links⟩], [], [url], processLoop seenAt (toInt8 (depth + 1)) url 1 links⟩ := by
    unfold process processEntry
    simp only [hd2, if_false, hu, hs, hf, hl, Bool.false_eq_true]
  refine ⟨links, _, hl, hp, rfl, ?_, ?_⟩
  · simp only
    rw [toInt8_succ depth hlo hhi]
    exact processLoop_eq seenAt (depth + 1) url links 0
  · simp only
    rw [processLoop_eq seenAt _ url links 0]
    intro s hs
    simp only [List.mem_map, List.mem_filter, Bool.and_eq_true, bne_iff_ne] at hs
    obtain ⟨p, ⟨_, _, hp2⟩, rfl⟩ := hs
    exact hp2

set_option maxRecDepth 1000000 in
/-- The call `process(1, /faq, fetch)` on the mock site, with the page `/about`
already stored when the loop looks it up: one goroutine, for `/info` at depth 2. -/
theorem process_spawns_witness :
    ∃ eff, process (testCreeper 2)
        (fun i => if i = 0 then [] else [("https://mmmmm.com/about", [])]) 1
        "https://mmmmm.com/faq" (mockFetch "https://mmmmm.com") = some eff ∧
      eff.sent = [⟨"https://mmmmm.com/faq",
        ["https://mmmmm.com/about", "https://mmmmm.com/info"]⟩] ∧
      eff.spawned = [(2, "https://mmmmm.com/info")] := by
  obtain ⟨links, eff, hl, h1, h2, h3, _⟩ := process_spawns (testCreeper 2)
    (regexSetup "https://mmmmm.com") ⟨"https".data, "mmmmm.com".data, [], [], false⟩
    (by decide) rfl (fun i => if i = 0 then [] else [("https://mmmmm.com/about", [])]) 1
    "https://mmmmm.com/faq" (mockFetch "https://mmmmm.com")
    "<a href=\"/about\">About</a> <a href=\"/info\">Info</a>"
    (by decide) (by decide) (by decide) (by decide) (by decide) rfl
  have hl2 : extractLinks (testCreeper 2) "<a href=\"/about\">About</a> <a href=\"/info\">Info</a>" =
      some ["https://mmmmm.com/about", "https://mmmmm.com/info"] := by decide
  rw [hl2] at hl
  cases hl
  exact ⟨eff, h1, h2, by rw [h3]; decide⟩

/-! ## The report ends and stays within the depth -/

theorem createOffsetLoop_isSome (offset : String) (depth : Int) (hd : depth < 127) :
    ∀ (fuel : Nat) (i : Int) (off : String), 0 ≤ i → (depth + 1 - i).toNat + 1 ≤ fuel →
      ∃ s, createOffsetLoop offset depth fuel i off = some s := by
  intro fuel
  induction fuel with
  | zero => intro i off _ h; omega
  | succ fuel ih =>
    intro i off hi h
    simp only [createOffsetLoop]
    by_cases hle : i ≤ depth
    · simp only [hle, if_true]
      have h8 : toInt8 (i + 1) = i + 1 := by unfold toInt8; omega
      rw [h8]
      exact ih (i + 1) _ (by omega) (by omega)
    · simp only [hle, if_false]
      exact ⟨off, rfl⟩

theorem displayLinks_ok (P : List Line → Prop) (hnil : P [])
    (happ : ∀ a b, P a → P b → P (a ++ b))
    (hlink : ∀ o i l, P [Line.link o i l]) (hbefore : ∀ o, P [Line.before o])
    (recurse : List String → Int → String → Option (List Line × List String))
    (linkOfs url : String) (depth : Int)
    (hrec : ∀ dp l, ∃ out d1, recurse dp depth l = some (out, d1) ∧ P out) :
    ∀ (links : List String) (i : Nat) (dp : List String),
      ∃ out d, displayLinks recurse linkOfs url depth i links dp = some (out, d) ∧ P out := by
  intro links
  induction links with
  | nil => intro i dp; exact ⟨[], dp, rfl, hnil⟩
  | cons l rest ih =>
    intro i dp
    simp only [displayLinks]
    by_cases h1 : url = l
    · subst h1
      obtain ⟨out, d, ho, hp⟩ := ih (i + 1) dp
      refine ⟨Line.link linkOfs i url :: out, d, by simp [ho], ?_⟩
      exact happ [_] out (hlink _ _ _) hp
    · by_cases h2 : url ∈ dp
      · obtain ⟨out, d, ho, hp⟩ := ih (i + 1) dp
        refine ⟨Line.link linkOfs i l :: Line.before linkOfs :: out, d, by simp [h1, h2, ho], ?_⟩
        exact happ [_] _ (hlink _ _ _) (happ [_] out (hbefore _) hp)
      · obtain ⟨out1, d1, ho1, hp1⟩ := hrec dp l
        obtain ⟨out, d, ho, hp⟩ := ih (i + 1) d1
        refine ⟨Line.link linkOfs i l :: (out1 ++ out), d, by simp [h1, h2, ho1, ho], ?_⟩
        exact happ [_] _ (hlink _ _ _) (happ _ _ hp1 hp)

theorem displayPageMap_ok (seenLinks : SiteMap) (maxDepth : Int) (offset : String)
    (h10 : maxDepth ≤ 10) :
    ∀ (fuel : Nat) (dp : List String) (depth : Int) (url : String),
      0 ≤ depth → depth ≤ maxDepth → (maxDepth - depth).toNat + maxDepth.toNat + 2 ≤ fuel →
      ∃ out d, displayPageMap seenLinks maxDepth offset fuel dp depth url = some (out, d) ∧
        ∀ uo u dep, Line.header uo u dep ∈ out → 0 ≤ dep ∧ dep ≤ maxDepth := by
  intro fuel
  induction fuel with
  | zero => intro dp depth url _ _ h; omega
  | succ fuel ih =>
    intro dp depth url h0 hmax hf
    obtain ⟨urlOfs, hofs⟩ := createOffsetLoop_isSome offset depth (by omega) (fuel + 1) 0 ""
      (le_refl 0) (by omega)
    have h8 : toInt8 (depth + 1) = depth + 1 := by unfold toInt8; omega
    simp only [displayPageMap, createOffset, hofs, h8]
    by_cases hgt : depth + 1 > maxDepth
    · simp only [hgt, if_true]
      refine ⟨_, _, rfl, ?_⟩
      intro uo u dep hmem
      simp only [List.mem_cons, Line.header.injEq, reduceCtorEq, List.mem_nil_iff, or_false,
        false_or] at hmem
      obtain ⟨_, _, rfl⟩ := hmem
      exact ⟨h0, hmax⟩
    · simp only [hgt, if_false]
      obtain ⟨out, d, ho, hp⟩ := displayLinks_ok
        (fun out => ∀ uo u dep, Line.header uo u dep ∈ out → 0 ≤ dep ∧ dep ≤ maxDepth)
        (by intro uo u dep h; simp at h)
        (by
          intro a b ha hb uo u dep h
          rcases List.mem_append.1 h with h | h
          · exact ha uo u dep h
          · exact hb uo u dep h)
        (by intro o i l uo u dep h; simp at h)
        (by intro o uo u dep h; simp at h)
        (fun d dp l => displayPageMap seenLinks maxDepth offset fuel d dp l)
        (urlOfs ++ offset) url (depth + 1)
        (fun dp1 l => ih dp1 (depth + 1) l (by omega) (by omega) (by omega))
        ((seenLinks.get url).getD []) 0 dp
      refine ⟨_, _, by rw [ho], ?_⟩
      intro uo u dep hmem
      simp only [List.append_assoc, List.cons_append, List.nil_append, List.mem_cons,
        Line.header.injEq, reduceCtorEq, List.mem_append, List.mem_nil_iff, or_false,
        false_or] at hmem
      rcases hmem with ⟨_, _, rfl⟩ | hmem
      · exact ⟨h0, hmax⟩
      · exact hp uo u dep hmem

/-- C10: for every map, start URL and maximum depth in `[0, 10]`,
`displayPageMap` started at depth 0 returns (with any fuel of at least
`2 * maxDepth + 2`), and every page it prints is at a depth between 0 and the
maximum depth. -/
theorem displayPageMap_terminates (seenLinks : SiteMap) (maxDepth : Int) (offset url : String)
    (fuel : Nat) (h0 : 0 ≤ maxDepth) (h10 : maxDepth ≤ 10)
    (hf : 2 * maxDepth.toNat + 2 ≤ fuel) :
    ∃ out d, displayPageMap seenLinks maxDepth offset fuel [] 0 url = some (out, d) ∧
      ∀ uo u dep, Line.header uo u dep ∈ out → 0 ≤ dep ∧ dep ≤ maxDepth :=
  displayPageMap_ok seenLinks maxDepth offset h10 fuel [] 0 url (le_refl 0) h0 (by omega)

/-- A map with a self-link and a cycle (`A` links to `B` and to itself, `B`
links back to `A`), rendered to depth 2. -/
theorem displayPageMap_terminates_witness :
    ∃ out d, displayPageMap cyclicMap 2 " " 6 [] 0 "A" = some (out, d) ∧
      ∀ uo u dep, Line.header uo u dep ∈ out → 0 ≤ dep ∧ dep ≤ 2 :=
  displayPageMap_terminates cyclicMap 2 " " "A" 6 (by decide) (by decide) (by decide)


/-! ## Runs of the crawl on the mock site -/

set_option maxRecDepth 1000000 in
/-- C1 at the mock site with maximum depth 2, under `lateSchedule`: the crawl
completes and `seenLinks` has no entry for `https://mmmmm.com/careers`, which is
two links from the base (base, `/about`, `/careers`); the second case of
`TestCreeper_process` expects that entry. -/
theorem crawl_late_schedule_loses_careers :
    (run (testCreeper 2) (mockFetch "https://mmmmm.com") lateSchedule
        (World.init (testCreeper 2))).map (fun w => (w.completed, w.seenLinks)) =
      some (true,
        [("https://mmmmm.com", ["https://mmmmm.com/faq", "https://mmmmm.com/about"]),
         ("https://mmmmm.com/faq", ["https://mmmmm.com/about", "https://mmmmm.com/info"]),
         ("https://mmmmm.com/about", ["https://mmmmm.com/careers", "https://mmmmm.com/faq"]),
         ("https://mmmmm.com/info", ["https://mmmmm.com/about", "https://mmmmm.com/generic"])]) := by
  decide!

set_option maxRecDepth 1000000 in
/-- C9 at the mock site with maximum depth 2, under `doubleSchedule`: the crawl
completes, `https://mmmmm.com/about` is fetched twice and the collector receives
two pages for it. -/
theorem crawl_double_schedule_fetches_twice :
    (run (testCreeper 2) (mockFetch "https://mmmmm.com") doubleSchedule
        (World.init (testCreeper 2))).map
        (fun w => (w.completed, w.fetched.count "https://mmmmm.com/about",
          (w.received.filter (fun p => p.url = "https://mmmmm.com/about")).length)) =
      some (true, 2, 2) := by
  decide!

set_option maxRecDepth 1000000 in
/-- C4 at the base `https://mmmmm.com`: the dot of the base is pasted unquoted
into the pattern, so an anchor to the host `mmmmmxcom` is matched and its link is
returned. -/
theorem extractLinks_other_host :
    extractLinks (initCreeper "https://mmmmm.com" 3)
        "<a href=\"https://mmmmmxcom/about\">x</a>" =
      some ["https://mmmmmxcom/about"] := by
  decide!

/-! ## What the report lists -/

theorem displayLinks_sublist
    (recurse : List String → Int → String → Option (List Line × List String))
    (linkOfs url : String) (depth : Int) :
    ∀ (links : List String) (i : Nat) (dp : List String) (out : List Line) (d : List String),
      displayLinks recurse linkOfs url depth i links dp = some (out, d) →
      (linkLines linkOfs i links).Sublist out := by
  intro links
  induction links with
  | nil => intro i dp out d _; exact List.nil_sublist _
  | cons l rest ih =>
    intro i dp out d h
    simp only [displayLinks] at h
    simp only [linkLines]
    by_cases h1 : url = l
    · simp only [h1, if_true] at h
      cases hr : displayLinks recurse linkOfs l depth (i + 1) rest dp with
      | none => simp [hr] at h
      | some r =>
        obtain ⟨o, d1⟩ := r
        simp only [hr, Option.some.injEq, Prod.mk.injEq] at h
        obtain ⟨rfl, _⟩ := h
        exact (ih (i + 1) dp o d1 (by rw [h1]; exact hr)).cons₂ _
    · simp only [h1, if_false] at h
      by_cases h2 : url ∈ dp
      · simp only [h2, if_true] at h
        cases hr : displayLinks recurse linkOfs url depth (i + 1) rest dp with
        | none => simp [hr] at h
        | some r =>
          obtain ⟨o, d1⟩ := r
          simp only [hr, Option.some.injEq, Prod.mk.injEq] at h
          obtain ⟨rfl, _⟩ := h
          exact ((ih (i + 1) dp o d1 hr).cons _).cons₂ _
      · simp only [h2, if_false] at h
        cases hc : recurse dp depth l with
        | none => simp [hc] at h
        | some r1 =>
          obtain ⟨o1, d1⟩ := r1
          simp only [hc] at h
          cases hr : displayLinks recurse linkOfs url depth (i + 1) rest d1 with
          | none => simp [hr] at h
          | some r =>
            obtain ⟨o, d2⟩ := r
            simp only [hr, Option.some.injEq, Prod.mk.injEq] at h
            obtain ⟨rfl, _⟩ := h
            exact ((ih (i + 1) d1 o d2 hr).trans (List.sublist_append_right o1 o)).cons₂ _

theorem displayLinks_marked
    (recurse : List String → Int → String → Option (List Line × List String))
    (linkOfs url : String) (depth : Int) (dp : List String) (hmem : url ∈ dp) :
    ∀ (links : List String) (i : Nat),
      displayLinks recurse linkOfs url depth i links dp =
        some (markedLinks linkOfs url i links, dp) := by
  intro links
  induction links with
  | nil => intro i; rfl
  | cons l rest ih =>
    intro i
    simp only [displayLinks, markedLinks, ih (i + 1), hmem, if_true]
    by_cases h1 : url = l <;> simp [h1]

theorem displayLinks_mono
    (recurse : List String → Int → String → Option (List Line × List String))
    (linkOfs url : String) (depth : Int)
    (hrec : ∀ dp l out d1, recurse dp depth l = some (out, d1) → ∀ x ∈ dp, x ∈ d1) :
    ∀ (links : List String) (i : Nat) (dp : List String) (out : List Line) (d : List String),
      displayLinks recurse linkOfs url depth i links dp = some (out, d) → ∀ x ∈ dp, x ∈ d := by
  intro links
  induction links with
  | nil =>
    intro i dp out d h x hx
    simp only [displayLinks, Option.some.injEq, Prod.mk.injEq] at h
    rw [← h.2]; exact hx
  | cons l rest ih =>
    intro i dp out d h x hx
    simp only [displayLinks] at h
    by_cases h1 : url = l
    · simp only [h1, if_true] at h
      cases hr : displayLinks recurse linkOfs l depth (i + 1) rest dp with
      | none => simp [hr] at h
      | some r =>
        obtain ⟨o, d1⟩ := r
        simp only [hr, Option.some.injEq, Prod.mk.injEq] at h
        obtain ⟨_, rfl⟩ := h
        exact ih (i + 1) dp o d1 (by rw [h1]; exact hr) x hx
    · simp only [h1, if_false] at h
      by_cases h2 : url ∈ dp
      · simp only [h2, if_true] at h
        cases hr : displayLinks recurse linkOfs url depth (i + 1) rest dp with
        | none => simp [hr] at h
        | some r =>
          obtain ⟨o, d1⟩ := r
          simp only [hr, Option.some.injEq, Prod.mk.injEq] at h
          obtain ⟨_, rfl⟩ := h
          exact ih (i + 1) dp o d1 hr x hx
      · simp only [h2, if_false] at h
        cases hc : recurse dp depth l with
        | none => simp [hc] at h
        | some r1 =>
          obtain ⟨o1, d1⟩ := r1
          simp only [hc] at h
          cases hr : displayLinks recurse linkOfs url depth (i + 1) rest d1 with
          | none => simp [hr] at h
          | some r =>
            obtain ⟨o, d2⟩ := r
            simp only [hr, Option.some.injEq, Prod.mk.injEq] at h
            obtain ⟨_, rfl⟩ := h
            exact ih (i + 1) d1 o d2 hr x (hrec dp l o1 d1 hc x hx)

/-- One call of `displayPageMap` that returns: the offset it computed, and its
result either at the guard on the depth or after the loop. -/
theorem displayPageMap_eq (seenLinks : SiteMap) (maxDepth : Int) (offset : String)
    (fuel : Nat) (dp : List String) (depth : Int) (url : String) (out : List Line)
    (d : List String)
    (h : displayPageMap seenLinks maxDepth offset fuel dp depth url = some (out, d)) :
    ∃ urlOfs, createOffset fuel offset depth = some urlOfs ∧
      ((toInt8 (depth + 1) > maxDepth ∧
          out = [Line.rule, Line.header urlOfs url depth,
            Line.count (urlOfs ++ offset) ((seenLinks.get url).getD []).length, Line.dashes] ∧
          d = dp) ∨
        (¬ toInt8 (depth + 1) > maxDepth ∧
          ∃ out1 d1,
            displayLinks (fun a b c => displayPageMap seenLinks maxDepth offset (fuel - 1) a b c)
              (urlOfs ++ offset) url (toInt8 (depth + 1)) 0 ((seenLinks.get url).getD []) dp =
              some (out1, d1) ∧
            out = [Line.rule, Line.header urlOfs url depth,
              Line.count (urlOfs ++ offset) ((seenLinks.get url).getD []).length, Line.dashes] ++
              out1 ++ [Line.dashes] ∧
            d = url :: d1)) := by
  cases fuel with
  | zero => simp [displayPageMap] at h
  | succ fuel =>
    simp only [displayPageMap] at h
    cases ho : createOffset (fuel + 1) offset depth with
    | none => simp [ho] at h
    | some urlOfs =>
      simp only [ho] at h
      refine ⟨urlOfs, rfl, ?_⟩
      by_cases hg : toInt8 (depth + 1) > maxDepth
      · simp only [hg, if_true, Option.some.injEq, Prod.mk.injEq] at h
        exact Or.inl ⟨hg, h.1.symm, h.2.symm⟩
      · simp only [hg, if_false] at h
        right
        refine ⟨hg, ?_⟩
        simp only [Nat.add_sub_cancel]
        cases hl : displayLinks
            (fun a b c => displayPageMap seenLinks maxDepth offset fuel a b c)
            (urlOfs ++ offset) url (toInt8 (depth + 1)) 0 ((seenLinks.get url).getD []) dp with
        | none => simp [hl] at h
        | some r =>
          obtain ⟨o, d1⟩ := r
          simp only [hl, Option.some.injEq, Prod.mk.injEq] at h
          exact ⟨o, d1, rfl, h.1.symm, h.2.symm⟩

theorem displayPageMap_mono (seenLinks : SiteMap) (maxDepth : Int) (offset : String) :
    ∀ (fuel : Nat) (dp : List String) (depth : Int) (url : String) (out : List Line)
      (d : List String),
      displayPageMap seenLinks maxDepth offset fuel dp depth url = some (out, d) →
      ∀ x ∈ dp, x ∈ d := by
  intro fuel
  induction fuel with
  | zero => intro dp depth url out d h; simp [displayPageMap] at h
  | succ fuel ih =>
    intro dp depth url out d h x hx
    obtain ⟨urlOfs, _, hcase⟩ := displayPageMap_eq _ _ _ _ _ _ _ _ _ h
    rcases hcase with ⟨_, _, rfl⟩ | ⟨_, out1, d1, hl, _, rfl⟩
    · exact hx
    · simp only [Nat.add_sub_cancel] at hl
      exact List.mem_cons_of_mem _
        (displayLinks_mono _ _ _ _ (fun dp2 l o d2 hc => ih dp2 _ l o d2 hc) _ _ _ _ _ hl x hx)

/-- C12, as the code has it: a call of `displayPageMap` made during a render
(depth between 0 and `maxDepth`, `maxDepth` at most 10, enough fuel) returns; at
a depth below `maxDepth` its output holds the line of every link of the page, in
their order; at depth `maxDepth` it returns at the guard and prints the two
rules, the header and the number of links, and no link. -/
theorem displayPageMap_lists_links (seenLinks : SiteMap) (maxDepth : Int) (offset : String)
    (fuel : Nat) (dp : List String) (depth : Int) (url : String)
    (h0 : 0 ≤ depth) (hmax : depth ≤ maxDepth) (h10 : maxDepth ≤ 10)
    (hf : (maxDepth - depth).toNat + maxDepth.toNat + 2 ≤ fuel) :
    ∃ out d urlOfs,
      displayPageMap seenLinks maxDepth offset fuel dp depth url = some (out, d) ∧
      createOffset fuel offset depth = some urlOfs ∧
      (depth < maxDepth →
        (linkLines (urlOfs ++ offset) 0 ((seenLinks.get url).getD [])).Sublist out) ∧
      (depth = maxDepth →
        out = [Line.rule, Line.header urlOfs url depth,
          Line.count (urlOfs ++ offset) ((seenLinks.get url).getD []).length, Line.dashes]) := by
  obtain ⟨out, d, h, _⟩ :=
    displayPageMap_ok seenLinks maxDepth offset h10 fuel dp depth url h0 hmax hf
  obtain ⟨urlOfs, ho, hcase⟩ := displayPageMap_eq _ _ _ _ _ _ _ _ _ h
  have h8 : toInt8 (depth + 1) = depth + 1 := by unfold toInt8; omega
  rw [h8] at hcase
  refine ⟨out, d, urlOfs, h, ho, ?_, ?_⟩
  · intro hlt
    rcases hcase with ⟨hg, _, _⟩ | ⟨_, out1, d1, hl, rfl, _⟩
    · omega
    · have hs := displayLinks_sublist _ _ _ _ _ _ _ _ _ hl
      exact (hs.trans (List.sublist_append_right _ _)).trans (List.sublist_append_left _ _)
  · intro heq
    rcases hcase with ⟨_, hout, _⟩ | ⟨hg, _⟩
    · exact hout
    · omega

/-- The render of `diamondMap` to depth 3 from `A`: the lines of the two links of
`A` are in the output. -/
theorem displayPageMap_lists_links_witness :
    ∃ out d, displayPageMap diamondMap 3 " " 8 [] 0 "A" = some (out, d) ∧
      [Line.link "  " 0 "B", Line.link "  " 1 "C"].Sublist out := by
  obtain ⟨out, d, urlOfs, h, ho, hlt, _⟩ := displayPageMap_lists_links diamondMap 3 " " 8 [] 0 "A"
    (by decide) (by decide) (by decide) (by decide)
  have ho2 : createOffset 8 " " 0 = some " " := by decide
  rw [ho2] at ho
  cases ho
  exact ⟨out, d, h, hlt (by decide)⟩

/-- C12, as stated, fails at depth `maxDepth`: with `maxDepth = 0` the report of
a base page with two links holds no line for a link. -/
theorem displayPageMap_no_links_at_maxDepth :
    displayPageMap [("A", ["B", "C"])] 0 " " 8 [] 0 "A" =
      some ([Line.rule, Line.header " " "A" 0, Line.count "  " 2, Line.dashes], []) := by
  decide

/-- C13, as the code has it: a call of `displayPageMap` below the maximum depth
on a URL that is in `displayedPages` recurses into no link: it prints the
header, then each link followed by the marker `(links displayed before)`
(the marker is left out for a link equal to the URL); and a call below the
maximum depth that returns leaves its URL in `displayedPages`, which never
loses an entry. -/
theorem displayPageMap_displayed_before (seenLinks : SiteMap) (maxDepth : Int)
    (offset : String) (fuel : Nat) (dp : List String) (depth : Int) (url : String)
    (h0 : 0 ≤ depth) (hlt : depth < maxDepth) (h127 : maxDepth ≤ 127)
    (hf : depth.toNat + 2 ≤ fuel) :
    (url ∈ dp →
      ∃ urlOfs, createOffset fuel offset depth = some urlOfs ∧
        displayPageMap seenLinks maxDepth offset fuel dp depth url =
          some ([Line.rule, Line.header urlOfs url depth,
              Line.count (urlOfs ++ offset) ((seenLinks.get url).getD []).length, Line.dashes] ++
            markedLinks (urlOfs ++ offset) url 0 ((seenLinks.get url).getD []) ++ [Line.dashes],
            url :: dp)) ∧
    (∀ out d, displayPageMap seenLinks maxDepth offset fuel dp depth url = some (out, d) →
      url ∈ d ∧ ∀ x ∈ dp, x ∈ d) := by
  have h8 : toInt8 (depth + 1) = depth + 1 := by unfold toInt8; omega
  constructor
  · intro hmem
    obtain ⟨urlOfs, ho⟩ := createOffsetLoop_isSome offset depth (by omega) fuel 0 ""
      (le_refl 0) (by omega)
    refine ⟨urlOfs, ho, ?_⟩
    cases fuel with
    | zero => omega
    | succ fuel =>
      have hg : ¬ depth + 1 > maxDepth := by omega
      have ho2 : createOffset (fuel + 1) offset depth = some urlOfs := ho
      simp only [displayPageMap, ho2, h8, hg, if_false,
        displayLinks_marked _ _ _ _ dp hmem]
  · intro out d h
    obtain ⟨urlOfs, _, hcase⟩ := displayPageMap_eq _ _ _ _ _ _ _ _ _ h
    rw [h8] at hcase
    rcases hcase with ⟨hg, _, _⟩ | ⟨_, out1, d1, _, _, rfl⟩
    · omega
    · exact ⟨List.mem_cons_self _ _,
        fun x hx => displayPageMap_mono _ _ _ _ _ _ _ _ _ h x hx⟩

/-- The page `C` of `diamondMap` met again at depth 1 once it is in
`displayedPages`: its link is printed with the marker and not recursed into. -/
theorem displayPageMap_displayed_before_witness :
    displayPageMap diamondMap 3 " " 8 ["C", "B"] 1 "C" =
      some ([Line.rule, Line.header "  " "C" 1, Line.count "   " 1, Line.dashes,
        Line.link "   " 0 "D", Line.before "   ", Line.dashes], ["C", "C", "B"]) := by
  obtain ⟨urlOfs, ho, h⟩ := (displayPageMap_displayed_before diamondMap 3 " " 8 ["C", "B"] 1 "C"
    (by decide) (by decide) (by decide) (by decide)).1 (by decide)
  have ho2 : createOffset 8 " " 1 = some "  " := by decide
  rw [ho2] at ho
  cases ho
  rw [h]
  decide

/-- C13, as stated, fails on a cycle: in the render of `loopMap` to depth 3 the
page `A` is expanded at depth 0 and again at depth 2, and each time its link `B`
is recursed into. -/
theorem displayPageMap_cycle_expands_twice :
    (displayPageMap loopMap 3 " " 8 [] 0 "A").map (fun r => r.1.filter Line.isHeader) =
      some [Line.header " " "A" 0, Line.header "  " "B" 1, Line.header "   " "A" 2,
        Line.header "    " "B" 3] := by
  decide

/-! ## `main` -/

/-- C11 at `--depth 200`: the conversion `int8(depth)` of `main` turns 200 into
-56, `inputCheck` accepts the configuration and leaves `Depth` at -56, and the
first call of `process`, at depth 0, returns at once without a fetch. -/
theorem main_depth_200 :
    (inputCheck (mainCreeper (L := goURL) "https://docs.docker.com" 200)).1 = none ∧
      (inputCheck (mainCreeper (L := goURL) "https://docs.docker.com" 200)).2.Depth = -56 ∧
      process (pageScannerSetup
          (inputCheck (mainCreeper (L := goURL) "https://docs.docker.com" 200)).2)
        (fun _ => []) 0 "https://docs.docker.com" (fun _ => .ok "") =
        some ⟨[], [], [], []⟩ := by
  decide

end Crawler
